import Mathlib

/-!
# Q15 AXPY kernel (`audiomark.c`)

A shallow embedding of `src/audiomark.c`: the scalar reference kernel
`q15_axpy_ref`, the RVV kernel `q15_axpy_rvv` (both build variants), the
verifier `verify_equal` and the harness `main`.

Conventions.
* C integers are `Int`; a conversion to a fixed width is written explicitly
  (`toInt16`, `toInt32`, `toUInt64`, two's complement wrap).
* The three buffers a kernel sees live in `Mem`, together with the ordered
  trace of element accesses the kernel has performed.  A pointer is a buffer
  name plus an element offset.
* An access outside a buffer yields `none`; so does a loop that exhausts its
  fuel.  Every loop is started with enough fuel and is proved to return.
* The RVV intrinsics come from the compiler's `riscv_vector.h`; they are
  modelled after the RVV 1.0 specification.  The number of lanes granted by
  `vsetvl` is a parameter of the kernel.
-/

namespace Audiomark

/-! ## Fixed-width integers -/

/-- Range of `int16_t`. -/
def isInt16 (v : Int) : Prop := -32768 ≤ v ∧ v ≤ 32767

/-- Range of `int32_t` (and of `int`). -/
def isInt32 (v : Int) : Prop := -2147483648 ≤ v ∧ v ≤ 2147483647

instance (v : Int) : Decidable (isInt16 v) := by unfold isInt16; infer_instance

instance (v : Int) : Decidable (isInt32 v) := by unfold isInt32; infer_instance

/-- Conversion to `int16_t`: two's complement wrap to 16 bits. -/
def toInt16 (v : Int) : Int := (v + 32768) % 65536 - 32768

/-- Conversion to `int32_t`: two's complement wrap to 32 bits. -/
def toInt32 (v : Int) : Int := (v + 2147483648) % 4294967296 - 2147483648

/-- Conversion to `size_t` (64 bits, unsigned). -/
def toUInt64 (v : Int) : Int := v % 18446744073709551616

/-! ## Memory -/

/-- The three buffers a kernel is handed. -/
inductive Buf where
  | a
  | b
  | y
  deriving DecidableEq, Repr

/-- One element access. -/
inductive Access where
  | load (p : Buf) (i : Nat)
  | store (p : Buf) (i : Nat)
  deriving DecidableEq, Repr

/-- The buffers and the accesses performed so far, oldest first. -/
structure Mem where
  a : List Int
  b : List Int
  y : List Int
  trace : List Access
  deriving DecidableEq, Repr

/-- Contents of a buffer. -/
def Mem.buf (m : Mem) : Buf → List Int
  | Buf.a => m.a
  | Buf.b => m.b
  | Buf.y => m.y

/-- Replace the contents of a buffer. -/
def Mem.setBuf (m : Mem) (p : Buf) (l : List Int) : Mem :=
  match p with
  | Buf.a => { m with a := l }
  | Buf.b => { m with b := l }
  | Buf.y => { m with y := l }

/-- Record an access. -/
def Mem.log (m : Mem) (t : List Access) : Mem := { m with trace := m.trace ++ t }

/-- Scalar read `p[i]`. -/
def Mem.load (m : Mem) (p : Buf) (i : Int) : Option (Int × Mem) :=
  if 0 ≤ i ∧ i.toNat < (m.buf p).length then
    some ((m.buf p).getD i.toNat 0, m.log [Access.load p i.toNat])
  else none

/-- Scalar write `p[i] = v`. -/
def Mem.store (m : Mem) (p : Buf) (i : Int) (v : Int) : Option Mem :=
  if 0 ≤ i ∧ i.toNat < (m.buf p).length then
    some ((m.setBuf p ((m.buf p).set i.toNat v)).log [Access.store p i.toNat])
  else none

/-! ## Scalar reference (lines 7-20) -/

/-- Source `sat_q15_scalar`: clamp an `int32_t` to the `int16_t` range. -/
def sat_q15_scalar (v : Int) : Int :=
  if v > 32767 then 32767
  else if v < -32768 then -32768
  else toInt16 v

/-- The `int32_t` accumulator of line 17. -/
def acc32 (ai alpha bi : Int) : Int :=
  toInt32 (toInt32 ai + toInt32 (toInt32 alpha * toInt32 bi))

/-- The `for` loop of `q15_axpy_ref`, entered at the test `i < n`. -/
def q15_axpy_ref_loop (n alpha : Int) : Nat → Int → Mem → Option Mem
  | 0, _, _ => none
  | fuel + 1, i, m =>
    if i < n then
      match m.load Buf.a i with
      | none => none
      | some (ai, m1) =>
        match m1.load Buf.b i with
        | none => none
        | some (bi, m2) =>
          match m2.store Buf.y i (sat_q15_scalar (acc32 ai alpha bi)) with
          | none => none
          | some m3 => q15_axpy_ref_loop n alpha fuel (toInt32 (i + 1)) m3
    else some m

/-- Source `q15_axpy_ref`. -/
def q15_axpy_ref (m : Mem) (n : Int) (alpha : Int) : Option Mem :=
  q15_axpy_ref_loop n alpha (n.toNat + 1) 0 m

/-! ## RVV intrinsics (RVV 1.0) -/

/-- Fixed-point rounding modes (`vxrm`). -/
inductive Vxrm where
  | rnu
  | rne
  | rdn
  | rod
  deriving DecidableEq, Repr

/-- Bit `i` of a two's complement integer. -/
def bit (v : Int) (i : Nat) : Bool := (v / 2 ^ i) % 2 = 1

/-- Whether some bit below position `d` is set. -/
def lowBitsNonzero (v : Int) (d : Nat) : Bool := v % 2 ^ d ≠ 0

/-- Rounding increment `r` for a right shift by `d` bits. -/
def roundIncrement (mode : Vxrm) (v : Int) (d : Nat) : Int :=
  match mode with
  | Vxrm.rnu => if d ≥ 1 ∧ bit v (d - 1) then 1 else 0
  | Vxrm.rne =>
    if d ≥ 1 ∧ bit v (d - 1) ∧ (lowBitsNonzero v (d - 1) ∨ bit v d) then 1 else 0
  | Vxrm.rdn => 0
  | Vxrm.rod => if ¬ bit v d ∧ lowBitsNonzero v d then 1 else 0

/-- The specification's `roundoff_signed(v, d) = (v >> d) + r`. -/
def roundoff_signed (mode : Vxrm) (v : Int) (d : Nat) : Int :=
  v / 2 ^ d + roundIncrement mode v d

/-- Signed saturation to 16 bits, as performed by `vnclip`. -/
def clip16 (v : Int) : Int :=
  if v > 32767 then 32767 else if v < -32768 then -32768 else v

/-- Unit-stride load `vle16.v` of `vl` elements starting at `p + off`. -/
def vle16 (m : Mem) (p : Buf) (off vl : Nat) : Option (List Int × Mem) :=
  if off + vl ≤ (m.buf p).length then
    some (((m.buf p).drop off).take vl,
      m.log ((List.range' off vl).map (Access.load p)))
  else none

/-- Unit-stride store `vse16.v` of the first `vl` elements of `v` at `p + off`. -/
def vse16 (m : Mem) (p : Buf) (off : Nat) (v : List Int) (vl : Nat) :
    Option Mem :=
  if off + vl ≤ (m.buf p).length ∧ vl ≤ v.length then
    some ((m.setBuf p ((m.buf p).take off ++ v.take vl ++
        (m.buf p).drop (off + vl))).log
      ((List.range' off vl).map (Access.store p)))
  else none

/-- Widening add `vwadd.vx`: 16-bit lanes plus a scalar, in 32 bits. -/
def vwadd_vx (vs : List Int) (x : Int) (vl : Nat) : List Int :=
  (vs.take vl).map fun e => toInt32 (e + x)

/-- Widening multiply-accumulate `vwmacc.vx`: `vd[i] += x * vs[i]` in 32
bits. -/
def vwmacc_vx (vd : List Int) (x : Int) (vs : List Int) (vl : Nat) : List Int :=
  List.zipWith (fun d e => toInt32 (toInt32 (x * e) + d)) (vd.take vl) (vs.take vl)

/-- Narrowing clip `vnclip.wx`: round off by the low five bits of `shift`, then
saturate to 16 bits. -/
def vnclip_wx (vs : List Int) (shift : Nat) (mode : Vxrm) (vl : Nat) : List Int :=
  (vs.take vl).map fun e => clip16 (roundoff_signed mode e (shift % 32))

/-! ## RVV kernel (lines 28-58) -/

/-- The update `n -= vl` with `int n` and `size_t vl`: the subtraction is done
in `size_t` and the result converted back to `int`. -/
def subVl (n : Int) (vl : Nat) : Int :=
  toInt32 (toUInt64 (toUInt64 n - (vl : Int)))

/-- The strip-mining loop of the native build, entered at the test `n > 0`.
`off` is the distance the three pointers have advanced; `vsetvl` maps the
requested length to the granted one. -/
def q15_axpy_rvv_loop (vsetvl : Nat → Nat) (alpha : Int) :
    Nat → Int → Nat → Mem → Option Mem
  | 0, _, _, _ => none
  | fuel + 1, n, off, m =>
    if n > 0 then
      let vl := vsetvl (toUInt64 n).toNat
      match vle16 m Buf.a off vl with
      | none => none
      | some (va, m1) =>
        match vle16 m1 Buf.b off vl with
        | none => none
        | some (vb, m2) =>
          let v_acc := vwadd_vx va 0 vl
          let v_acc := vwmacc_vx v_acc alpha vb vl
          let v_res := vnclip_wx v_acc 0 Vxrm.rne vl
          match vse16 m2 Buf.y off v_res vl with
          | none => none
          | some m3 => q15_axpy_rvv_loop vsetvl alpha fuel (subVl n vl) (off + vl) m3
    else some m

/-- The control skeleton of the strip-mining loop (lines 37 and 39 alone): the
strips it executes, each as `(offset, vl)`, and the value of `n` on exit. -/
def q15_axpy_rvv_strips (vsetvl : Nat → Nat) :
    Nat → Int → Nat → Option (List (Nat × Nat) × Int)
  | 0, _, _ => none
  | fuel + 1, n, off =>
    if n > 0 then
      let vl := vsetvl (toUInt64 n).toNat
      match q15_axpy_rvv_strips vsetvl fuel (subVl n vl) (off + vl) with
      | none => none
      | some (l, r) => some ((off, vl) :: l, r)
    else some ([], n)

/-- Source `q15_axpy_rvv`, native build (the `#else` branch). -/
def q15_axpy_rvv_native (vsetvl : Nat → Nat) (m : Mem) (n : Int) (alpha : Int) :
    Option Mem :=
  q15_axpy_rvv_loop vsetvl alpha (n.toNat + 1) n 0 m

/-- Source `q15_axpy_rvv`, fallback build (line 33). -/
def q15_axpy_rvv_fallback (m : Mem) (n : Int) (alpha : Int) : Option Mem :=
  q15_axpy_ref m n alpha

/-- Which branch of the `#if` at line 31 is compiled. -/
inductive Build where
  | fallback
  | native (vsetvl : Nat → Nat)

/-- Source `q15_axpy_rvv`. -/
def q15_axpy_rvv (bld : Build) (m : Mem) (n : Int) (alpha : Int) : Option Mem :=
  match bld with
  | Build.fallback => q15_axpy_rvv_fallback m n alpha
  | Build.native vsetvl => q15_axpy_rvv_native vsetvl m n alpha

/-- What `vsetvl` may grant, as far as this kernel relies on it: at least one
lane and no more than requested. -/
def ValidVsetvl (vsetvl : Nat → Nat) : Prop :=
  ∀ avl, 0 < avl → 1 ≤ vsetvl avl ∧ vsetvl avl ≤ avl

/-- The `vsetvl` of a machine with `vlmax` lanes per register group, in the
simplest permitted form: `min avl vlmax`. -/
def vsetvl_e16m1 (vlmax : Nat) (avl : Nat) : Nat := min avl vlmax

/-! ## Verifier (lines 61-72) -/

/-- The `for` loop of `verify_equal`; the state is `(ok, md)`. -/
def verify_equal_loop (ref test : List Int) (n : Int) :
    Nat → Int → Int → Int → Option (Int × Int)
  | 0, _, _, _ => none
  | fuel + 1, i, ok, md =>
    if i < n then
      if 0 ≤ i ∧ i.toNat < ref.length ∧ i.toNat < test.length then
        let d := toInt32 (toInt32 (ref.getD i.toNat 0) - toInt32 (test.getD i.toNat 0))
        let d := if d < 0 then toInt32 (-d) else d
        let md := if d > md then d else md
        let ok := if d ≠ 0 then 0 else ok
        verify_equal_loop ref test n fuel (toInt32 (i + 1)) ok md
      else none
    else some (ok, md)

/-- Source `verify_equal`: returns `(ok, *max_diff)`. -/
def verify_equal (ref test : List Int) (n : Int) : Option (Int × Int) :=
  verify_equal_loop ref test n (n.toNat + 1) 0 1 0

/-! ## Harness (lines 78-122) -/

/-- Source `N`. -/
def N : Int := 4096

/-- The `Sample` stored by lines 91-92 for a generator output `r`:
`(int16_t)((r % 65536) - 32768)`, with C's truncating remainder. -/
def sample (r : Int) : Int := toInt16 (Int.tmod r 65536 - 32768)

/-- The fill loop of lines 90-93.  `rand k` is what the `k`-th call of `rand`
after `srand(1234)` returns; the state carries the number of calls made. -/
def fill_loop (rand : Nat → Int) :
    Nat → Int → Nat → List Int → List Int → Option (List Int × List Int)
  | 0, _, _, _, _ => none
  | fuel + 1, i, k, a, b =>
    if i < N then
      if 0 ≤ i ∧ i.toNat < a.length ∧ i.toNat < b.length then
        let a := a.set i.toNat (sample (rand k))
        let b := b.set i.toNat (sample (rand (k + 1)))
        fill_loop rand fuel (toInt32 (i + 1)) (k + 2) a b
      else none
    else some (a, b)

/-- How the program was compiled: without `__riscv`, or for RISC-V with one
of the two builds of `q15_axpy_rvv`.  The four numbers are the values the
cycle counter shows at the four `rdcycle` reads, in program order. -/
inductive Target where
  | host
  | riscv (bld : Build) (c0_ref c1_ref c0_rvv c1_rvv : Int)

/-- The build of `q15_axpy_rvv` a target uses (line 31). -/
def Target.build : Target → Build
  | Target.host => Build.fallback
  | Target.riscv bld _ _ _ _ => bld

/-- The word printed for the verifier's result: `ok ? "OK" : "FAIL"`. -/
inductive Verdict where
  | OK
  | FAIL
  deriving DecidableEq, Repr

/-- One line of standard output, with the arguments handed to `printf`. -/
inductive Line where
  | cyclesRef (c : Int)
  | verifyRVV (v : Verdict) (md : Int)
  | cyclesRVV (c : Int)
  | speedup (num den : Int)
  | nonRiscv (v : Verdict)
  deriving DecidableEq, Repr

/-- The calls `main` makes after the allocations, other than to `rand`,
`rdcycle` and `printf`. -/
inductive Call where
  | srand (seed : Int)
  | q15_axpy_ref
  | q15_axpy_rvv
  | verify_equal
  | free
  deriving DecidableEq, Repr

/-- What a run of `main` amounts to. -/
structure Outcome where
  status : Int
  stdout : List Line
  calls : List Call
  deriving DecidableEq, Repr

/-- The lines printed for a verifier result `(ok, md)` (lines 101-111 and
117). -/
def Target.report (tgt : Target) (ok md : Int) : List Line :=
  let v := if ok ≠ 0 then Verdict.OK else Verdict.FAIL
  match tgt with
  | Target.host => [Line.nonRiscv v]
  | Target.riscv _ c0_ref c1_ref c0_rvv c1_rvv =>
    [Line.cyclesRef (toUInt64 (c1_ref - c0_ref)),
     Line.verifyRVV v md,
     Line.cyclesRVV (toUInt64 (c1_rvv - c0_rvv)),
     Line.speedup (toUInt64 (c1_ref - c0_ref)) (toUInt64 (c1_rvv - c0_rvv))]

/-- Lines 89-116 without the printing: fill `a` and `b`, run both kernels,
compare their outputs.  Returns what `verify_equal` returns. -/
def run_and_verify (tgt : Target) (rand : Nat → Int) (a b y0 y1 : List Int) :
    Option (Int × Int) :=
  match fill_loop rand (N.toNat + 1) 0 0 a b with
  | none => none
  | some (a, b) =>
    let alpha : Int := 3
    match q15_axpy_ref ⟨a, b, y0, []⟩ N alpha with
    | none => none
    | some mr =>
      match q15_axpy_rvv tgt.build ⟨mr.a, mr.b, y1, []⟩ N alpha with
      | none => none
      | some mv => verify_equal mr.y mv.y N

/-- Source `main`.  The four arguments `a`, `b`, `y0`, `y1` are the results of
the four `aligned_alloc` calls: `none` for a null pointer, otherwise the
(indeterminate) initial contents of the buffer. -/
def main (tgt : Target) (rand : Nat → Int) (a b y0 y1 : Option (List Int)) :
    Option Outcome :=
  match a, b, y0, y1 with
  | some a, some b, some y0, some y1 =>
    match run_and_verify tgt rand a b y0 y1 with
    | none => none
    | some (ok, md) =>
      some {
        status := if ok ≠ 0 then 0 else 1
        stdout := tgt.report ok md
        calls := [Call.srand 1234, Call.q15_axpy_ref, Call.q15_axpy_rvv, Call.verify_equal,
          Call.free, Call.free, Call.free, Call.free] }
  | _, _, _, _ => some { status := 1, stdout := [], calls := [] }

/-- Lines 89-116 without the printing, with an arbitrary implementation `rvv`
standing where line 114 (105) calls the kernel under test, `q15_axpy_rvv`;
`run_and_verify tgt` is this at `q15_axpy_rvv tgt.build`. -/
def run_and_verify_with (rvv : Mem → Int → Int → Option Mem) (rand : Nat → Int)
    (a b y0 y1 : List Int) : Option (Int × Int) :=
  match fill_loop rand (N.toNat + 1) 0 0 a b with
  | none => none
  | some (a, b) =>
    let alpha : Int := 3
    match q15_axpy_ref ⟨a, b, y0, []⟩ N alpha with
    | none => none
    | some mr =>
      match rvv ⟨mr.a, mr.b, y1, []⟩ N alpha with
      | none => none
      | some mv => verify_equal mr.y mv.y N

/-- Source `main` with an arbitrary implementation `rvv` of the kernel under
test; `main tgt` is this at `q15_axpy_rvv tgt.build`.  It lets the harness be
observed on a kernel whose output differs from the reference. -/
def main_with (rvv : Mem → Int → Int → Option Mem) (tgt : Target) (rand : Nat → Int)
    (a b y0 y1 : Option (List Int)) : Option Outcome :=
  match a, b, y0, y1 with
  | some a, some b, some y0, some y1 =>
    match run_and_verify_with rvv rand a b y0 y1 with
    | none => none
    | some (ok, md) =>
      some {
        status := if ok ≠ 0 then 0 else 1
        stdout := tgt.report ok md
        calls := [Call.srand 1234, Call.q15_axpy_ref, Call.q15_axpy_rvv, Call.verify_equal,
          Call.free, Call.free, Call.free, Call.free] }
  | _, _, _, _ => some { status := 1, stdout := [], calls := [] }

/-- A target whose `vsetvl`, if it has one, is admissible. -/
def Target.Valid (tgt : Target) : Prop :=
  ∀ vsetvl, tgt.build = Build.native vsetvl → ValidVsetvl vsetvl

/-! ## Specification vocabulary -/

/-- The element both kernels are to write at index `j`, as line 17-18 compute
it from the inputs held in `m`. -/
def axpyAt (m : Mem) (alpha : Int) (j : Nat) : Int :=
  sat_q15_scalar (acc32 (m.a.getD j 0) alpha (m.b.getD j 0))

/-- The accesses a kernel may perform while working on the index range
`[lo, hi)`: reads of `a` and `b` and writes of `y`, inside the range. -/
def Access.inSpan (lo hi : Nat) : Access → Prop
  | Access.load Buf.a i => lo ≤ i ∧ i < hi
  | Access.load Buf.b i => lo ≤ i ∧ i < hi
  | Access.store Buf.y i => lo ≤ i ∧ i < hi
  | _ => False

/-- The spec's rectangular clamp of `v` into `[lo, hi]`, over the integers. -/
def clamp (v lo hi : Int) : Int := max lo (min v hi)

/-- The state after one strip of `vl` lanes at offset `off`. -/
def Mem.afterStrip (m : Mem) (alpha : Int) (off vl : Nat) : Mem :=
  { m with
    y := m.y.take off ++ (List.range' off vl).map (axpyAt m alpha) ++ m.y.drop (off + vl)
    trace := m.trace ++ (List.range' off vl).map (Access.load Buf.a) ++
      (List.range' off vl).map (Access.load Buf.b) ++
      (List.range' off vl).map (Access.store Buf.y) }

/-- The accesses of one strip `(off, vl)`, in program order: `vl` loads of `a`,
`vl` loads of `b`, `vl` stores to `y`, all at `off, ..., off + vl - 1`. -/
def stripTrace (c : Nat × Nat) : List Access :=
  (List.range' c.1 c.2).map (Access.load Buf.a) ++
    (List.range' c.1 c.2).map (Access.load Buf.b) ++
    (List.range' c.1 c.2).map (Access.store Buf.y)

/-- The strips are non-empty and consecutive from `start`: each begins where
the one before it ends. -/
def Contiguous : Nat → List (Nat × Nat) → Prop
  | _, [] => True
  | start, (off, vl) :: rest => off = start ∧ 1 ≤ vl ∧ Contiguous (start + vl) rest

/-- The number of strips whose index range `[off, off + vl)` contains `i`. -/
def covering (l : List (Nat × Nat)) (i : Nat) : Nat :=
  (l.filter fun c => decide (c.1 ≤ i ∧ i < c.1 + c.2)).length

/-- Effect of processing the index range `[lo, hi)`: state `m` before, `m'`
after. -/
structure Span (alpha : Int) (lo hi : Nat) (m m' : Mem) : Prop where
  a_eq : m'.a = m.a
  b_eq : m'.b = m.b
  y_len : m'.y.length = m.y.length
  y_get : ∀ j, m'.y[j]? =
    if lo ≤ j ∧ j < hi then some (axpyAt m alpha j) else m.y[j]?
  trace : ∃ t, m'.trace = m.trace ++ t ∧ ∀ x ∈ t, Access.inSpan lo hi x

/-- The frame condition of a kernel call with element count `n`: inputs and
the length of the output untouched, output unchanged from index `n` on, and
every access performed during the call (the trace suffix `t`) a read of `a`
or `b` or a write of `y` at an index below `n`. -/
def Frame (n : Nat) (m m' : Mem) : Prop :=
  m'.a = m.a ∧ m'.b = m.b ∧ m'.y.length = m.y.length ∧
  (∀ j, n ≤ j → m'.y[j]? = m.y[j]?) ∧
  ∃ t, m'.trace = m.trace ++ t ∧ ∀ x ∈ t, Access.inSpan 0 n x

/-- What the verifier has established after comparing the first `k` elements:
`ok` is a flag that is 1 exactly when they all agree, and `md` is the largest
absolute difference among them (0 when `k = 0`). -/
def VerifyPost (ref test : List Int) (k : Nat) (ok md : Int) : Prop :=
  (ok = 1 ∨ ok = 0) ∧
  (ok = 1 ↔ ∀ i, i < k → ref.getD i 0 = test.getD i 0) ∧
  (∀ i, i < k → |ref.getD i 0 - test.getD i 0| ≤ md) ∧
  ((k = 0 ∧ md = 0) ∨ ∃ i, i < k ∧ md = |ref.getD i 0 - test.getD i 0|)

/-! ## Sample inputs -/

/-- The inputs of the spec's four-element scenario, with output buffer `y`. -/
def scenarioMem (y : List Int) : Mem :=
  ⟨[0, 32767, -32768, 100], [0, 1, 1, -50], y, []⟩

/-- Inputs whose accumulators with `alpha = 2` are 32767, 32768, -32768 and
-32769. -/
def boundaryMem : Mem :=
  ⟨[32765, 32766, -32766, -32767], [1, 1, -1, -1], [0, 0, 0, 0], []⟩

/-- Five elements, for runs in strips of two lanes; the output buffer is one
element longer than the inputs. -/
def stripMem : Mem :=
  ⟨[1, 32767, -32768, 100, -7], [2, 1, 1, -50, 9], [5, 5, 5, 5, 5, 5], []⟩

/-- A faulty kernel under test: the reference result with `y[0]` replaced by
a different sample. -/
def faultyKernel (m : Mem) (n alpha : Int) : Option Mem :=
  (q15_axpy_ref m n alpha).map fun m' =>
    { m' with y := m'.y.set 0 (if m'.y.getD 0 0 = 0 then 1 else 0) }

/-- A linear congruential `rand`. -/
def lcgRand (k : Nat) : Int := (1103515245 * k + 12345) % 2147483648

/-- A freshly allocated buffer of `N` elements, zero-filled. -/
def zeroBuf : List Int := List.replicate 4096 0

/-! ## Fixed-width arithmetic -/

theorem toInt32_of_isInt32 {v : Int} (h : isInt32 v) : toInt32 v = v := by
  unfold isInt32 at h; unfold toInt32; omega

theorem toInt16_of_isInt16 {v : Int} (h : isInt16 v) : toInt16 v = v := by
  unfold isInt16 at h; unfold toInt16; omega

theorem isInt32_of_isInt16 {v : Int} (h : isInt16 v) : isInt32 v := by
  unfold isInt16 at h; unfold isInt32; omega

theorem mul_bounds {x y : Int} (hx : isInt16 x) (hy : isInt16 y) :
    -1073709056 ≤ x * y ∧ x * y ≤ 1073741824 := by
  unfold isInt16 at hx hy
  obtain ⟨hx1, hx2⟩ := hx
  obtain ⟨hy1, hy2⟩ := hy
  constructor
  · nlinarith [mul_nonneg (sub_nonneg.mpr hx1) (sub_nonneg.mpr hy1),
      mul_nonneg (sub_nonneg.mpr hx2) (sub_nonneg.mpr hy2)]
  · nlinarith [mul_nonneg (sub_nonneg.mpr hx1) (sub_nonneg.mpr hy2),
      mul_nonneg (sub_nonneg.mpr hx2) (sub_nonneg.mpr hy1)]

theorem acc_bounds {ai alpha bi : Int} (ha : isInt16 ai) (hal : isInt16 alpha)
    (hb : isInt16 bi) :
    -1073741824 ≤ ai + alpha * bi ∧ ai + alpha * bi ≤ 1073774591 := by
  have h := mul_bounds hal hb
  unfold isInt16 at ha
  omega

theorem acc32_exact {ai alpha bi : Int} (ha : isInt16 ai) (hal : isInt16 alpha)
    (hb : isInt16 bi) : acc32 ai alpha bi = ai + alpha * bi := by
  have hm := mul_bounds hal hb
  have hs := acc_bounds ha hal hb
  unfold acc32
  rw [toInt32_of_isInt32 (isInt32_of_isInt16 ha), toInt32_of_isInt32 (isInt32_of_isInt16 hal),
    toInt32_of_isInt32 (isInt32_of_isInt16 hb)]
  rw [toInt32_of_isInt32 (v := alpha * bi) (by unfold isInt32; omega)]
  exact toInt32_of_isInt32 (by unfold isInt32; omega)

theorem sat_q15_scalar_eq_clip16 (v : Int) : sat_q15_scalar v = clip16 v := by
  unfold sat_q15_scalar clip16
  split
  · rfl
  · split
    · rfl
    · exact toInt16_of_isInt16 (by unfold isInt16; omega)

theorem sat_q15_scalar_isInt16 (v : Int) : isInt16 (sat_q15_scalar v) := by
  rw [sat_q15_scalar_eq_clip16]
  unfold clip16 isInt16
  split
  · omega
  · split <;> omega

theorem roundoff_signed_zero (mode : Vxrm) (v : Int) : roundoff_signed mode v 0 = v := by
  cases mode <;> simp [roundoff_signed, roundIncrement, bit, lowBitsNonzero]

/-! ## Composition of spans -/

theorem axpyAt_congr {m m' : Mem} (ha : m'.a = m.a) (hb : m'.b = m.b) (alpha : Int)
    (j : Nat) : axpyAt m' alpha j = axpyAt m alpha j := by
  unfold axpyAt; rw [ha, hb]

theorem Access.inSpan_mono {lo hi lo' hi' : Nat} (h1 : lo' ≤ lo) (h2 : hi ≤ hi')
    {x : Access} (h : Access.inSpan lo hi x) : Access.inSpan lo' hi' x := by
  cases x with
  | load p i =>
    cases p
    · exact ⟨le_trans h1 h.1, lt_of_lt_of_le h.2 h2⟩
    · exact ⟨le_trans h1 h.1, lt_of_lt_of_le h.2 h2⟩
    · exact h
  | store p i =>
    cases p
    · exact h
    · exact h
    · exact ⟨le_trans h1 h.1, lt_of_lt_of_le h.2 h2⟩

theorem Span.empty (alpha : Int) (lo : Nat) (m : Mem) : Span alpha lo lo m m where
  a_eq := rfl
  b_eq := rfl
  y_len := rfl
  y_get := by
    intro j
    rw [if_neg (by omega)]
  trace := ⟨[], by simp⟩

theorem Span.trans {alpha : Int} {lo mid hi : Nat} {m m1 m2 : Mem}
    (h1 : Span alpha lo mid m m1) (h2 : Span alpha mid hi m1 m2)
    (hlo : lo ≤ mid) (hhi : mid ≤ hi) : Span alpha lo hi m m2 where
  a_eq := h2.a_eq.trans h1.a_eq
  b_eq := h2.b_eq.trans h1.b_eq
  y_len := h2.y_len.trans h1.y_len
  y_get := by
    intro j
    rw [h2.y_get, h1.y_get, axpyAt_congr h1.a_eq h1.b_eq]
    by_cases c1 : mid ≤ j ∧ j < hi
    · rw [if_pos c1, if_pos (by omega)]
    · rw [if_neg c1]
      by_cases c2 : lo ≤ j ∧ j < mid
      · rw [if_pos c2, if_pos (by omega)]
      · rw [if_neg c2, if_neg (by omega)]
  trace := by
    obtain ⟨t1, e1, p1⟩ := h1.trace
    obtain ⟨t2, e2, p2⟩ := h2.trace
    refine ⟨t1 ++ t2, by rw [e2, e1, List.append_assoc], ?_⟩
    intro x hx
    rcases List.mem_append.mp hx with h | h
    · exact Access.inSpan_mono (le_refl _) hhi (p1 x h)
    · exact Access.inSpan_mono hlo (le_refl _) (p2 x h)

/-! ## The reference loop -/

theorem toInt32_succ {i : Nat} {n : Int} (h : (i : Int) < n) (hn : n ≤ 2147483647) :
    toInt32 ((i : Int) + 1) = ((i + 1 : Nat) : Int) := by
  rw [toInt32_of_isInt32 (by unfold isInt32; omega)]
  push_cast
  rfl

/-- One iteration of the reference loop at index `i`. -/
theorem ref_body_span (alpha : Int) (i : Nat) (m : Mem) (hy : i < m.y.length) :
    Span alpha i (i + 1) m
      ({ m with
          y := m.y.set i (axpyAt m alpha i)
          trace := m.trace ++
            [Access.load Buf.a i, Access.load Buf.b i, Access.store Buf.y i] }) where
  a_eq := rfl
  b_eq := rfl
  y_len := by simp
  y_get := by
    intro j
    by_cases c : i = j
    · subst c
      simp [hy]
    · rw [if_neg (by omega)]
      simp [List.getElem?_set, c]
  trace := ⟨_, rfl, by
    intro x hx
    simp only [List.mem_cons, List.mem_singleton, List.not_mem_nil, or_false] at hx
    rcases hx with h | h | h <;> subst h <;> simp [Access.inSpan]⟩

theorem q15_axpy_ref_loop_step (n alpha : Int) (fuel i : Nat) (m : Mem)
    (hi : (i : Int) < n) (hn : n ≤ 2147483647)
    (ha : i < m.a.length) (hb : i < m.b.length) (hy : i < m.y.length) :
    q15_axpy_ref_loop n alpha (fuel + 1) i m =
      q15_axpy_ref_loop n alpha fuel ((i + 1 : Nat) : Int)
        ({ m with
          y := m.y.set i (axpyAt m alpha i)
          trace := m.trace ++
            [Access.load Buf.a i, Access.load Buf.b i, Access.store Buf.y i] }) := by
  rw [q15_axpy_ref_loop, if_pos hi, toInt32_succ hi hn]
  simp [Mem.load, Mem.store, Mem.log, Mem.buf, Mem.setBuf, ha, hb, hy, axpyAt]

theorem q15_axpy_ref_loop_span (n alpha : Int) (hn : n ≤ 2147483647) :
    ∀ (fuel i : Nat) (m : Mem), (i : Int) ≤ n → n.toNat - i < fuel →
      n.toNat ≤ m.a.length → n.toNat ≤ m.b.length → n.toNat ≤ m.y.length →
      ∃ m', q15_axpy_ref_loop n alpha fuel i m = some m' ∧ Span alpha i n.toNat m m' := by
  intro fuel
  induction fuel with
  | zero => intro i m _ hf; omega
  | succ fuel ih =>
    intro i m hi hf ha hb hy
    by_cases c : (i : Int) < n
    · rw [q15_axpy_ref_loop_step n alpha fuel i m c hn (by omega) (by omega) (by omega)]
      obtain ⟨m', e, s⟩ := ih (i + 1)
        ({ m with
          y := m.y.set i (axpyAt m alpha i)
          trace := m.trace ++
            [Access.load Buf.a i, Access.load Buf.b i, Access.store Buf.y i] })
        (by omega) (by omega) (by simpa using ha) (by simpa using hb) (by simpa using hy)
      refine ⟨m', e, ?_⟩
      exact Span.trans (ref_body_span alpha i m (by omega)) s (by omega) (by omega)
    · have e : n.toNat = i := by omega
      rw [q15_axpy_ref_loop, if_neg c, e]
      exact ⟨m, rfl, Span.empty alpha i m⟩

/-- The reference kernel returns, and its effect is that of the span
`[0, n)`. -/
theorem q15_axpy_ref_span (m : Mem) (n alpha : Int) (hn : n ≤ 2147483647)
    (ha : n.toNat ≤ m.a.length) (hb : n.toNat ≤ m.b.length) (hy : n.toNat ≤ m.y.length) :
    ∃ m', q15_axpy_ref m n alpha = some m' ∧ Span alpha 0 n.toNat m m' := by
  by_cases c : 0 ≤ n
  · exact q15_axpy_ref_loop_span n alpha hn (n.toNat + 1) 0 m (by simpa using c) (by omega)
      ha hb hy
  · have e : n.toNat = 0 := by omega
    refine ⟨m, ?_, by rw [e]; exact Span.empty alpha 0 m⟩
    unfold q15_axpy_ref
    rw [q15_axpy_ref_loop, if_neg (by omega)]

/-! ## One strip of the RVV loop -/

/-- One lane of the widen, multiply-accumulate and clip sequence agrees with
the scalar path. -/
theorem lane_eq {ai alpha bi : Int} (ha : isInt16 ai) (hal : isInt16 alpha)
    (hb : isInt16 bi) (mode : Vxrm) :
    clip16 (roundoff_signed mode (toInt32 (toInt32 (alpha * bi) + toInt32 (ai + 0))) 0) =
      sat_q15_scalar (acc32 ai alpha bi) := by
  have hm := mul_bounds hal hb
  have hs := acc_bounds ha hal hb
  rw [roundoff_signed_zero, sat_q15_scalar_eq_clip16, acc32_exact ha hal hb, Int.add_zero,
    toInt32_of_isInt32 (isInt32_of_isInt16 ha),
    toInt32_of_isInt32 (v := alpha * bi) (by unfold isInt32; omega),
    toInt32_of_isInt32 (by unfold isInt32; omega), Int.add_comm]

/-- The register written back by one strip. -/
theorem strip_result (m : Mem) (alpha : Int) (off vl : Nat) (mode : Vxrm)
    (ha : off + vl ≤ m.a.length) (hb : off + vl ≤ m.b.length)
    (hal : isInt16 alpha) (ia : ∀ x ∈ m.a, isInt16 x) (ib : ∀ x ∈ m.b, isInt16 x) :
    vnclip_wx (vwmacc_vx (vwadd_vx ((m.a.drop off).take vl) 0 vl) alpha
        ((m.b.drop off).take vl) vl) 0 mode vl =
      (List.range' off vl).map (axpyAt m alpha) := by
  apply List.ext_getElem
  · simp [vnclip_wx, vwmacc_vx, vwadd_vx]
    omega
  · intro k h1 h2
    have hk : k < vl := by simpa using h2
    have hka : off + k < m.a.length := by omega
    have hkb : off + k < m.b.length := by omega
    simp only [vnclip_wx, vwmacc_vx, vwadd_vx, List.getElem_map, List.getElem_take,
      List.getElem_zipWith, List.getElem_drop, List.getElem_range', Nat.zero_mod, axpyAt,
      List.getD_eq_getElem?_getD, List.getElem?_eq_getElem hka, List.getElem?_eq_getElem hkb,
      Option.getD_some, Nat.one_mul]
    exact lane_eq (ia _ (List.getElem_mem _)) hal (ib _ (List.getElem_mem _)) mode

theorem getElem?_splice (y r : List Int) (off j : Nat) (h : off + r.length ≤ y.length) :
    (y.take off ++ r ++ y.drop (off + r.length))[j]? =
      if off ≤ j ∧ j < off + r.length then r[j - off]? else y[j]? := by
  have hl : (y.take off).length = off := by simp; omega
  by_cases c1 : j < off
  · rw [if_neg (by omega), List.append_assoc, List.getElem?_append_left (by omega),
      List.getElem?_take, if_pos c1]
  · by_cases c2 : j < off + r.length
    · rw [if_pos (by omega), List.getElem?_append_left (by simp; omega),
        List.getElem?_append_right (by omega), hl]
    · rw [if_neg (by omega), List.getElem?_append_right (by simp; omega),
        List.getElem?_drop]
      congr 1
      simp
      omega

theorem afterStrip_span (m : Mem) (alpha : Int) (off vl : Nat)
    (hy : off + vl ≤ m.y.length) : Span alpha off (off + vl) m (m.afterStrip alpha off vl) where
  a_eq := rfl
  b_eq := rfl
  y_len := by
    simp [Mem.afterStrip]
    omega
  y_get := by
    intro j
    have h := getElem?_splice m.y ((List.range' off vl).map (axpyAt m alpha)) off j
      (by simpa using hy)
    simp only [List.length_map, List.length_range'] at h
    simp only [Mem.afterStrip]
    rw [h]
    by_cases c : off ≤ j ∧ j < off + vl
    · rw [if_pos c, if_pos c, List.getElem?_eq_getElem (by simp; omega)]
      simp
      congr 1
      omega
    · rw [if_neg c, if_neg c]
  trace := by
    refine ⟨(List.range' off vl).map (Access.load Buf.a) ++
      (List.range' off vl).map (Access.load Buf.b) ++
      (List.range' off vl).map (Access.store Buf.y), by simp [Mem.afterStrip], ?_⟩
    intro x hx
    simp only [List.mem_append, List.mem_map, List.mem_range'_1] at hx
    rcases hx with (⟨i, hi, rfl⟩ | ⟨i, hi, rfl⟩) | ⟨i, hi, rfl⟩ <;> exact hi

theorem toUInt64_toNat {n : Int} (h0 : 0 < n) (hn : n ≤ 2147483647) :
    (toUInt64 n).toNat = n.toNat := by
  unfold toUInt64; omega

theorem subVl_eq {n : Int} {vl : Nat} (h0 : 0 < n) (hn : n ≤ 2147483647)
    (h1 : vl ≤ n.toNat) :
    subVl n vl = n - vl := by
  unfold subVl toUInt64 toInt32; omega

theorem q15_axpy_rvv_loop_step (vsetvl : Nat → Nat) (alpha : Int) (fuel : Nat) (n : Int)
    (off : Nat) (m : Mem) (h0 : 0 < n) (hn : n ≤ 2147483647)
    (hvl : vsetvl n.toNat ≤ n.toNat)
    (ha : off + n.toNat ≤ m.a.length) (hb : off + n.toNat ≤ m.b.length)
    (hy : off + n.toNat ≤ m.y.length)
    (hal : isInt16 alpha) (ia : ∀ x ∈ m.a, isInt16 x) (ib : ∀ x ∈ m.b, isInt16 x) :
    q15_axpy_rvv_loop vsetvl alpha (fuel + 1) n off m =
      q15_axpy_rvv_loop vsetvl alpha fuel (n - (vsetvl n.toNat : Nat))
        (off + vsetvl n.toNat) (m.afterStrip alpha off (vsetvl n.toNat)) := by
  have hs := strip_result m alpha off (vsetvl n.toNat) Vxrm.rne (by omega) (by omega) hal ia ib
  rw [q15_axpy_rvv_loop, if_pos h0]
  dsimp only
  rw [toUInt64_toNat h0 hn, subVl_eq h0 hn hvl]
  have ha' : off + vsetvl n.toNat ≤ m.a.length := by omega
  have hb' : off + vsetvl n.toNat ≤ m.b.length := by omega
  have hy' : off + vsetvl n.toNat ≤ m.y.length := by omega
  simp only [vle16, vse16, Mem.log, Mem.buf, Mem.setBuf, ha', hb', hy', if_true, hs,
    List.length_map, List.length_range', le_refl, and_self, List.take_of_length_le]
  simp [Mem.afterStrip]

theorem q15_axpy_rvv_loop_span (vsetvl : Nat → Nat) (hv : ValidVsetvl vsetvl) (alpha : Int)
    (hal : isInt16 alpha) :
    ∀ (fuel : Nat) (n : Int) (off : Nat) (m : Mem), n ≤ 2147483647 → n.toNat < fuel →
      off + n.toNat ≤ m.a.length → off + n.toNat ≤ m.b.length →
      off + n.toNat ≤ m.y.length → (∀ x ∈ m.a, isInt16 x) → (∀ x ∈ m.b, isInt16 x) →
      ∃ m', q15_axpy_rvv_loop vsetvl alpha fuel n off m = some m' ∧
        Span alpha off (off + n.toNat) m m' := by
  intro fuel
  induction fuel with
  | zero => intro n off m _ hf; omega
  | succ fuel ih =>
    intro n off m hn hf ha hb hy ia ib
    by_cases c : 0 < n
    · obtain ⟨v1, v2⟩ := hv n.toNat (by omega)
      rw [q15_axpy_rvv_loop_step vsetvl alpha fuel n off m c hn v2 ha hb hy hal ia ib]
      have e : (n - (vsetvl n.toNat : Nat)).toNat = n.toNat - vsetvl n.toNat := by omega
      obtain ⟨m', e', s⟩ := ih (n - (vsetvl n.toNat : Nat)) (off + vsetvl n.toNat)
        (m.afterStrip alpha off (vsetvl n.toNat)) (by omega) (by omega)
        (by rw [e]; simp only [Mem.afterStrip]; omega)
        (by rw [e]; simp only [Mem.afterStrip]; omega)
        (by rw [e, (afterStrip_span m alpha off _ (by omega)).y_len]; omega)
        ia ib
      refine ⟨m', e', ?_⟩
      have s0 := afterStrip_span m alpha off (vsetvl n.toNat) (by omega)
      have e2 : off + vsetvl n.toNat + (n - (vsetvl n.toNat : Nat)).toNat = off + n.toNat := by
        omega
      rw [e2] at s
      exact Span.trans s0 s (by omega) (by omega)
    · have e : n.toNat = 0 := by omega
      rw [q15_axpy_rvv_loop, if_neg c, e]
      exact ⟨m, rfl, Span.empty alpha off m⟩

/-- The native RVV kernel returns, and its effect is that of the span
`[0, n)`. -/
theorem q15_axpy_rvv_native_span (vsetvl : Nat → Nat) (hv : ValidVsetvl vsetvl) (m : Mem)
    (n alpha : Int) (hn : n ≤ 2147483647) (hal : isInt16 alpha)
    (ha : n.toNat ≤ m.a.length) (hb : n.toNat ≤ m.b.length) (hy : n.toNat ≤ m.y.length)
    (ia : ∀ x ∈ m.a, isInt16 x) (ib : ∀ x ∈ m.b, isInt16 x) :
    ∃ m', q15_axpy_rvv_native vsetvl m n alpha = some m' ∧ Span alpha 0 n.toNat m m' := by
  have h := q15_axpy_rvv_loop_span vsetvl hv alpha hal (n.toNat + 1) n 0 m hn (by omega)
    (by omega) (by omega) (by omega) ia ib
  simpa [q15_axpy_rvv_native] using h

/-- Either build of the RVV kernel returns, with the effect of the span
`[0, n)`. -/
theorem q15_axpy_rvv_span (bld : Build)
    (hv : ∀ vsetvl, bld = Build.native vsetvl → ValidVsetvl vsetvl) (m : Mem)
    (n alpha : Int) (hn : n ≤ 2147483647) (hal : isInt16 alpha)
    (ha : n.toNat ≤ m.a.length) (hb : n.toNat ≤ m.b.length) (hy : n.toNat ≤ m.y.length)
    (ia : ∀ x ∈ m.a, isInt16 x) (ib : ∀ x ∈ m.b, isInt16 x) :
    ∃ m', q15_axpy_rvv bld m n alpha = some m' ∧ Span alpha 0 n.toNat m m' := by
  cases bld with
  | fallback => exact q15_axpy_ref_span m n alpha hn ha hb hy
  | native vsetvl =>
    exact q15_axpy_rvv_native_span vsetvl (hv vsetvl rfl) m n alpha hn hal ha hb hy ia ib

/-- Two states reached from `m` by the same span hold the same output. -/
theorem Span.y_unique {alpha : Int} {lo hi : Nat} {m m1 m2 : Mem}
    (h1 : Span alpha lo hi m m1) (h2 : Span alpha lo hi m m2) : m1.y = m2.y := by
  apply List.ext_getElem?
  intro j
  rw [h1.y_get, h2.y_get]

theorem validVsetvl_e16m1 (vlmax : Nat) (h : 0 < vlmax) : ValidVsetvl (vsetvl_e16m1 vlmax) := by
  intro avl ha
  unfold vsetvl_e16m1
  omega

/-! ## The verifier -/

theorem getD_isInt16 {l : List Int} (h : ∀ x ∈ l, isInt16 x) {i : Nat} (hi : i < l.length) :
    isInt16 (l.getD i 0) := by
  rw [List.getD_eq_getElem _ _ hi]
  exact h _ (List.getElem_mem _)

/-- The widened difference and its negation, as lines 65-66 compute them. -/
theorem abs_diff32 {r t : Int} (hr : isInt16 r) (ht : isInt16 t) :
    (if toInt32 (toInt32 r - toInt32 t) < 0 then toInt32 (-toInt32 (toInt32 r - toInt32 t))
      else toInt32 (toInt32 r - toInt32 t)) = |r - t| := by
  rw [toInt32_of_isInt32 (isInt32_of_isInt16 hr), toInt32_of_isInt32 (isInt32_of_isInt16 ht)]
  unfold isInt16 at hr ht
  rw [toInt32_of_isInt32 (v := r - t) (by unfold isInt32; omega)]
  rcases abs_cases (r - t) with ⟨e, h⟩ | ⟨e, h⟩
  · rw [e, if_neg (by omega)]
  · rw [e, if_pos h, toInt32_of_isInt32 (by unfold isInt32; omega)]

theorem verify_equal_loop_step (ref test : List Int) (n : Int) (fuel i : Nat) (ok md : Int)
    (hi : (i : Int) < n) (hn : n ≤ 2147483647)
    (lr : i < ref.length) (lt : i < test.length)
    (ir : ∀ x ∈ ref, isInt16 x) (it : ∀ x ∈ test, isInt16 x) :
    verify_equal_loop ref test n (fuel + 1) i ok md =
      verify_equal_loop ref test n fuel ((i + 1 : Nat) : Int)
        (if |ref.getD i 0 - test.getD i 0| ≠ 0 then 0 else ok)
        (if |ref.getD i 0 - test.getD i 0| > md then |ref.getD i 0 - test.getD i 0| else md) := by
  rw [verify_equal_loop, if_pos hi, toInt32_succ hi hn,
    if_pos ⟨Int.ofNat_nonneg i, by simpa using lr, by simpa using lt⟩]
  dsimp only
  rw [Int.toNat_ofNat, abs_diff32 (getD_isInt16 ir lr) (getD_isInt16 it lt)]

theorem VerifyPost.step {ref test : List Int} {i : Nat} {ok md : Int}
    (h : VerifyPost ref test i ok md) :
    VerifyPost ref test (i + 1)
      (if |ref.getD i 0 - test.getD i 0| ≠ 0 then 0 else ok)
      (if |ref.getD i 0 - test.getD i 0| > md then |ref.getD i 0 - test.getD i 0| else md) := by
  obtain ⟨h1, h2, h3, h4⟩ := h
  have hd : 0 ≤ |ref.getD i 0 - test.getD i 0| := abs_nonneg _
  have hz : |ref.getD i 0 - test.getD i 0| = 0 ↔ ref.getD i 0 = test.getD i 0 := by
    rw [abs_eq_zero, sub_eq_zero]
  refine ⟨?_, ?_, ?_, ?_⟩
  · split
    · right; rfl
    · exact h1
  · by_cases c : |ref.getD i 0 - test.getD i 0| = 0
    · rw [if_neg (not_not.mpr c), h2]
      constructor
      · intro h j hj
        rcases Nat.lt_succ_iff_lt_or_eq.mp hj with hj | hj
        · exact h j hj
        · rw [hj]; exact hz.mp c
      · intro h j hj
        exact h j (by omega)
    · rw [if_pos c]
      constructor
      · intro h; omega
      · intro h
        exact absurd (hz.mpr (h i (by omega))) c
  · intro j hj
    rcases Nat.lt_succ_iff_lt_or_eq.mp hj with hj | hj
    · have := h3 j hj
      split <;> omega
    · rw [hj]
      split <;> omega
  · right
    by_cases c : |ref.getD i 0 - test.getD i 0| > md
    · rw [if_pos c]
      exact ⟨i, by omega, rfl⟩
    · rw [if_neg c]
      rcases h4 with ⟨e0, e1⟩ | ⟨j, hj, e⟩
      · exact ⟨i, by omega, by omega⟩
      · exact ⟨j, by omega, e⟩

theorem verify_equal_loop_post (ref test : List Int) (n : Int) (hn : n ≤ 2147483647)
    (lr : n.toNat ≤ ref.length) (lt : n.toNat ≤ test.length)
    (ir : ∀ x ∈ ref, isInt16 x) (it : ∀ x ∈ test, isInt16 x) :
    ∀ (fuel i : Nat) (ok md : Int), (i : Int) ≤ n → n.toNat - i < fuel →
      VerifyPost ref test i ok md →
      ∃ ok' md', verify_equal_loop ref test n fuel i ok md = some (ok', md') ∧
        VerifyPost ref test n.toNat ok' md' := by
  intro fuel
  induction fuel with
  | zero => intro i ok md _ hf; omega
  | succ fuel ih =>
    intro i ok md hi hf hp
    by_cases c : (i : Int) < n
    · rw [verify_equal_loop_step ref test n fuel i ok md c hn (by omega) (by omega) ir it]
      exact ih (i + 1) _ _ (by omega) (by omega) hp.step
    · have e : n.toNat = i := by omega
      rw [verify_equal_loop, if_neg c, e]
      exact ⟨ok, md, rfl, hp⟩

theorem VerifyPost.init (ref test : List Int) : VerifyPost ref test 0 1 0 := by
  refine ⟨Or.inl rfl, ?_, ?_, Or.inl ⟨rfl, rfl⟩⟩
  · simp
  · intro i hi; omega

/-- The verifier returns, with the flag and the maximum it is meant to
compute. -/
theorem verify_equal_post (ref test : List Int) (n : Int) (hn : n ≤ 2147483647)
    (lr : n.toNat ≤ ref.length) (lt : n.toNat ≤ test.length)
    (ir : ∀ x ∈ ref, isInt16 x) (it : ∀ x ∈ test, isInt16 x) :
    ∃ ok md, verify_equal ref test n = some (ok, md) ∧ VerifyPost ref test n.toNat ok md := by
  by_cases c : 0 ≤ n
  · exact verify_equal_loop_post ref test n hn lr lt ir it (n.toNat + 1) 0 1 0
      (by simpa using c) (by omega) (VerifyPost.init ref test)
  · have e : n.toNat = 0 := by omega
    refine ⟨1, 0, ?_, by rw [e]; exact VerifyPost.init ref test⟩
    unfold verify_equal
    rw [verify_equal_loop, if_neg (by omega)]

/-! ## The harness -/

theorem toInt16_isInt16 (v : Int) : isInt16 (toInt16 v) := by
  unfold isInt16 toInt16; omega

theorem fill_loop_step (rand : Nat → Int) (fuel i k : Nat) (a b : List Int)
    (hi : (i : Int) < N) (la : i < a.length) (lb : i < b.length) :
    fill_loop rand (fuel + 1) i k a b =
      fill_loop rand fuel ((i + 1 : Nat) : Int) (k + 2) (a.set i (sample (rand k)))
        (b.set i (sample (rand (k + 1)))) := by
  rw [fill_loop, if_pos hi, toInt32_succ hi (by unfold N at hi ⊢; omega),
    if_pos ⟨Int.ofNat_nonneg i, by simpa using la, by simpa using lb⟩]
  dsimp only
  rw [Int.toNat_ofNat]

theorem isInt16_getD_set {l : List Int} {i : Nat} {v : Int} (hv : isInt16 v)
    (h : ∀ j, j < i → isInt16 (l.getD j 0)) :
    ∀ j, j < i + 1 → isInt16 ((l.set i v).getD j 0) := by
  intro j hj
  rw [List.getD_eq_getElem?_getD, List.getElem?_set]
  by_cases c : i = j
  · rw [if_pos c]
    split
    · exact hv
    · decide
  · rw [if_neg c, ← List.getD_eq_getElem?_getD]
    exact h j (by omega)

theorem fill_loop_post (rand : Nat → Int) :
    ∀ (fuel i k : Nat) (a b : List Int), (i : Int) ≤ N → N.toNat - i < fuel →
      a.length = N.toNat → b.length = N.toNat →
      (∀ j, j < i → isInt16 (a.getD j 0)) → (∀ j, j < i → isInt16 (b.getD j 0)) →
      ∃ a' b', fill_loop rand fuel i k a b = some (a', b') ∧
        a'.length = N.toNat ∧ b'.length = N.toNat ∧
        (∀ j, j < N.toNat → isInt16 (a'.getD j 0)) ∧
        (∀ j, j < N.toNat → isInt16 (b'.getD j 0)) := by
  intro fuel
  induction fuel with
  | zero => intro i k a b _ hf; omega
  | succ fuel ih =>
    intro i k a b hi hf la lb ia ib
    by_cases c : (i : Int) < N
    · have hN : i < N.toNat := by omega
      rw [fill_loop_step rand fuel i k a b c (by omega) (by omega)]
      exact ih (i + 1) (k + 2) _ _ (by omega) (by omega) (by simpa using la)
        (by simpa using lb) (isInt16_getD_set (toInt16_isInt16 _) ia)
        (isInt16_getD_set (toInt16_isInt16 _) ib)
    · have e : N.toNat = i := by omega
      rw [fill_loop, if_neg c]
      exact ⟨a, b, rfl, la, lb, by rw [e]; exact ia, by rw [e]; exact ib⟩

theorem forall_mem_of_getD {l : List Int} {k : Nat} (hl : l.length = k)
    (h : ∀ j, j < k → isInt16 (l.getD j 0)) : ∀ x ∈ l, isInt16 x := by
  intro x hx
  obtain ⟨j, hj, rfl⟩ := List.getElem_of_mem hx
  have := h j (by omega)
  rwa [List.getD_eq_getElem _ _ hj] at this

theorem Span.getD_y {alpha : Int} {k : Nat} {m m' : Mem} (s : Span alpha 0 k m m') {j : Nat}
    (hj : j < k) : m'.y.getD j 0 = axpyAt m alpha j := by
  rw [List.getD_eq_getElem?_getD, s.y_get, if_pos ⟨Nat.zero_le _, hj⟩, Option.getD_some]

theorem Span.y_isInt16 {alpha : Int} {k : Nat} {m m' : Mem} (s : Span alpha 0 k m m')
    (hl : m.y.length = k) : ∀ x ∈ m'.y, isInt16 x := by
  apply forall_mem_of_getD (s.y_len.trans hl)
  intro j hj
  rw [s.getD_y hj]
  exact sat_q15_scalar_isInt16 _

theorem VerifyPost.of_agree {ref test : List Int} {k : Nat} {ok md : Int}
    (p : VerifyPost ref test k ok md) (h : ∀ i, i < k → ref.getD i 0 = test.getD i 0) :
    ok = 1 ∧ md = 0 := by
  obtain ⟨_, h2, _, h4⟩ := p
  refine ⟨h2.mpr h, ?_⟩
  rcases h4 with ⟨_, e⟩ | ⟨i, hi, e⟩
  · exact e
  · rw [e, h i hi, sub_self, abs_zero]

/-- Both kernels return on the same inputs and the verifier finds their
outputs identical. -/
theorem verify_kernels (bld : Build) (a b y0 y1 : List Int) (n alpha : Int)
    (hv : ∀ vsetvl, bld = Build.native vsetvl → ValidVsetvl vsetvl)
    (hn : n ≤ 2147483647) (hal : isInt16 alpha)
    (la : n.toNat ≤ a.length) (lb : n.toNat ≤ b.length)
    (l0 : y0.length = n.toNat) (l1 : y1.length = n.toNat)
    (ia : ∀ x ∈ a, isInt16 x) (ib : ∀ x ∈ b, isInt16 x) :
    ∃ mr mv, q15_axpy_ref ⟨a, b, y0, []⟩ n alpha = some mr ∧
      q15_axpy_rvv bld ⟨mr.a, mr.b, y1, []⟩ n alpha = some mv ∧
      mr.a = a ∧ mr.b = b ∧
      verify_equal mr.y mv.y n = some (1, 0) := by
  obtain ⟨mr, er, sr⟩ := q15_axpy_ref_span ⟨a, b, y0, []⟩ n alpha hn la lb (by rw [l0])
  have ea : mr.a = a := sr.a_eq
  have eb : mr.b = b := sr.b_eq
  obtain ⟨mv, ev, sv⟩ := q15_axpy_rvv_span bld hv ⟨mr.a, mr.b, y1, []⟩ n alpha hn hal
    (by rw [ea]; exact la) (by rw [eb]; exact lb) (by rw [l1])
    (by rw [ea]; exact ia) (by rw [eb]; exact ib)
  refine ⟨mr, mv, er, ev, ea, eb, ?_⟩
  obtain ⟨ok, md, e, p⟩ := verify_equal_post mr.y mv.y n hn
    (by rw [sr.y_len]; exact le_of_eq l0.symm) (by rw [sv.y_len]; exact le_of_eq l1.symm)
    (sr.y_isInt16 l0) (sv.y_isInt16 l1)
  have h := p.of_agree (fun i hi => by
    rw [sr.getD_y hi, sv.getD_y hi]
    exact (@axpyAt_congr ⟨a, b, y0, []⟩ ⟨mr.a, mr.b, y1, []⟩ ea eb alpha i).symm)
  rw [e, h.1, h.2]

theorem run_and_verify_ok (tgt : Target) (rand : Nat → Int) (a b y0 y1 : List Int)
    (hv : tgt.Valid) (la : a.length = 4096) (lb : b.length = 4096)
    (l0 : y0.length = 4096) (l1 : y1.length = 4096) :
    run_and_verify tgt rand a b y0 y1 = some (1, 0) := by
  obtain ⟨a', b', ef, la', lb', ia', ib'⟩ := fill_loop_post rand (N.toNat + 1) 0 0 a b
    (by decide) (by omega) la lb (fun j hj => by omega) (fun j hj => by omega)
  obtain ⟨mr, mv, er, ev, _, _, e⟩ := verify_kernels tgt.build a' b' y0 y1 N 3 hv (by decide)
    (by decide) (le_of_eq la'.symm) (le_of_eq lb'.symm) l0 l1
    (forall_mem_of_getD la' ia') (forall_mem_of_getD lb' ib')
  have ef' : fill_loop rand (N.toNat + 1) 0 0 a b = some (a', b') := ef
  unfold run_and_verify
  rw [ef']
  dsimp only
  rw [er]
  dsimp only
  rw [ev]
  exact e

theorem main_of_allocated (tgt : Target) (rand : Nat → Int) (a b y0 y1 : List Int) :
    main tgt rand (some a) (some b) (some y0) (some y1) =
      (run_and_verify tgt rand a b y0 y1).map fun r =>
        { status := if r.1 ≠ 0 then 0 else 1
          stdout := tgt.report r.1 r.2
          calls := [Call.srand 1234, Call.q15_axpy_ref, Call.q15_axpy_rvv, Call.verify_equal,
            Call.free, Call.free, Call.free, Call.free] } := by
  unfold main
  dsimp only
  cases run_and_verify tgt rand a b y0 y1 <;> rfl

theorem main_of_null (tgt : Target) (rand : Nat → Int) (a b y0 y1 : Option (List Int))
    (h : a = none ∨ b = none ∨ y0 = none ∨ y1 = none) :
    main tgt rand a b y0 y1 = some { status := 1, stdout := [], calls := [] } := by
  unfold main
  cases a <;> cases b <;> cases y0 <;> cases y1 <;> simp at h ⊢

theorem report_ok (tgt : Target) :
    Line.nonRiscv Verdict.OK ∈ tgt.report 1 0 ∨ Line.verifyRVV Verdict.OK 0 ∈ tgt.report 1 0 := by
  cases tgt with
  | host => left; simp [Target.report]
  | riscv bld c0 c1 c2 c3 => right; simp [Target.report]

/-! ## Claims -/

theorem sat_q15_scalar_eq_clamp (v : Int) : sat_q15_scalar v = clamp v (-32768) 32767 := by
  rw [sat_q15_scalar_eq_clip16]
  unfold clip16 clamp
  omega

theorem axpyAt_eq_clamp (m : Mem) {alpha : Int} {i : Nat} (hal : isInt16 alpha)
    (ha : i < m.a.length) (hb : i < m.b.length)
    (ia : ∀ x ∈ m.a, isInt16 x) (ib : ∀ x ∈ m.b, isInt16 x) :
    axpyAt m alpha i = clamp (m.a.getD i 0 + alpha * m.b.getD i 0) (-32768) 32767 := by
  unfold axpyAt
  have h1 : isInt16 (m.a.getD i 0) := by
    rw [List.getD_eq_getElem _ _ ha]; exact ia _ (List.getElem_mem _)
  have h2 : isInt16 (m.b.getD i 0) := by
    rw [List.getD_eq_getElem _ _ hb]; exact ib _ (List.getElem_mem _)
  rw [acc32_exact h1 hal h2, sat_q15_scalar_eq_clamp]

/-- C1: for every `n`, all `int16_t` buffers `a`, `b` holding at least `n`
elements and every `int16_t` `alpha`, the native (strip-mined) build of
`q15_axpy_rvv`, under any `vsetvl` that grants between one lane and the
number requested, returns and writes at every index below `n` exactly the
element `q15_axpy_ref` writes there, whatever the two output buffers held
before. -/
theorem q15_axpy_rvv_eq_ref (vsetvl : Nat → Nat) (m : Mem) (y1 : List Int) (n alpha : Int)
    (hv : ValidVsetvl vsetvl) (hn : n ≤ 2147483647) (hal : isInt16 alpha)
    (ha : n.toNat ≤ m.a.length) (hb : n.toNat ≤ m.b.length)
    (hy : n.toNat ≤ m.y.length) (hy1 : n.toNat ≤ y1.length)
    (ia : ∀ x ∈ m.a, isInt16 x) (ib : ∀ x ∈ m.b, isInt16 x) :
    ∃ mr mv, q15_axpy_ref m n alpha = some mr ∧
      q15_axpy_rvv (Build.native vsetvl) { m with y := y1 } n alpha = some mv ∧
      ∀ i, i < n.toNat → ∃ v, mv.y[i]? = some v ∧ mr.y[i]? = some v := by
  obtain ⟨mr, er, sr⟩ := q15_axpy_ref_span m n alpha hn ha hb hy
  obtain ⟨mv, ev, sv⟩ := q15_axpy_rvv_native_span vsetvl hv { m with y := y1 } n alpha hn hal
    ha hb hy1 ia ib
  refine ⟨mr, mv, er, ev, ?_⟩
  intro i hi
  refine ⟨axpyAt m alpha i, ?_, ?_⟩
  · rw [sv.y_get, if_pos ⟨Nat.zero_le _, hi⟩]
    rfl
  · rw [sr.y_get, if_pos ⟨Nat.zero_le _, hi⟩]

/-- Witness for C1: five elements in strips of two lanes (two full strips and
a remainder of one). -/
theorem q15_axpy_rvv_eq_ref_witness :
    ∃ mr mv, q15_axpy_ref stripMem 5 3 = some mr ∧
      q15_axpy_rvv (Build.native (vsetvl_e16m1 2)) { stripMem with y := [0, 0, 0, 0, 0] } 5 3
        = some mv ∧
      ∀ i, i < (5 : Int).toNat → ∃ v, mv.y[i]? = some v ∧ mr.y[i]? = some v :=
  q15_axpy_rvv_eq_ref (vsetvl_e16m1 2) stripMem [0, 0, 0, 0, 0] 5 3
    (validVsetvl_e16m1 2 (by decide)) (by decide) (by decide) (by decide) (by decide)
    (by decide) (by decide) (by decide) (by decide)

/-- C2: after `q15_axpy_ref(a, b, y, n, alpha)` on `int16_t` inputs, every
`y[i]` with `i < n` equals `clamp(a[i] + alpha*b[i], -32768, 32767)` computed
over the integers; the clamp sends values above 32767 to 32767, values below
-32768 to -32768 and leaves values in range unchanged. -/
theorem q15_axpy_ref_clamp (m : Mem) (n alpha : Int)
    (hn : n ≤ 2147483647) (hal : isInt16 alpha)
    (ha : n.toNat ≤ m.a.length) (hb : n.toNat ≤ m.b.length) (hy : n.toNat ≤ m.y.length)
    (ia : ∀ x ∈ m.a, isInt16 x) (ib : ∀ x ∈ m.b, isInt16 x) :
    (∃ mr, q15_axpy_ref m n alpha = some mr ∧
      ∀ i, i < n.toNat →
        mr.y[i]? = some (clamp (m.a.getD i 0 + alpha * m.b.getD i 0) (-32768) 32767)) ∧
    ∀ v : Int, (v > 32767 → clamp v (-32768) 32767 = 32767) ∧
      (v < -32768 → clamp v (-32768) 32767 = -32768) ∧
      (-32768 ≤ v ∧ v ≤ 32767 → clamp v (-32768) 32767 = v) := by
  constructor
  · obtain ⟨mr, er, sr⟩ := q15_axpy_ref_span m n alpha hn ha hb hy
    refine ⟨mr, er, ?_⟩
    intro i hi
    rw [sr.y_get, if_pos ⟨Nat.zero_le _, hi⟩,
      axpyAt_eq_clamp m hal (by omega) (by omega) ia ib]
  · intro v
    unfold clamp
    omega

/-- Witness for C2. -/
theorem q15_axpy_ref_clamp_witness :
    (∃ mr, q15_axpy_ref stripMem 5 (-3) = some mr ∧
      ∀ i, i < (5 : Int).toNat →
        mr.y[i]? = some (clamp (stripMem.a.getD i 0 + (-3) * stripMem.b.getD i 0)
          (-32768) 32767)) ∧
    ∀ v : Int, (v > 32767 → clamp v (-32768) 32767 = 32767) ∧
      (v < -32768 → clamp v (-32768) 32767 = -32768) ∧
      (-32768 ≤ v ∧ v ≤ 32767 → clamp v (-32768) 32767 = v) :=
  q15_axpy_ref_clamp stripMem 5 (-3)
    (by decide) (by decide) (by decide) (by decide) (by decide) (by decide) (by decide)

/-- C3: `sat_q15_scalar` maps 32767, 32768, -32768, -32769 to 32767, 32767,
-32768, -32768; and wherever the exact accumulator `a[i] + alpha*b[i]` of
`int16_t` inputs is one of these four values, both `q15_axpy_ref` and
`q15_axpy_rvv` (either build) write the corresponding clamped result. -/
theorem saturation_boundary (bld : Build) (m : Mem) (y1 : List Int) (n alpha : Int)
    (hv : ∀ vsetvl, bld = Build.native vsetvl → ValidVsetvl vsetvl)
    (hn : n ≤ 2147483647) (hal : isInt16 alpha)
    (ha : n.toNat ≤ m.a.length) (hb : n.toNat ≤ m.b.length)
    (hy : n.toNat ≤ m.y.length) (hy1 : n.toNat ≤ y1.length)
    (ia : ∀ x ∈ m.a, isInt16 x) (ib : ∀ x ∈ m.b, isInt16 x) :
    (sat_q15_scalar 32767 = 32767 ∧ sat_q15_scalar 32768 = 32767 ∧
      sat_q15_scalar (-32768) = -32768 ∧ sat_q15_scalar (-32769) = -32768) ∧
    ∃ mr mv, q15_axpy_ref m n alpha = some mr ∧
      q15_axpy_rvv bld { m with y := y1 } n alpha = some mv ∧
      ∀ i, i < n.toNat →
        (m.a.getD i 0 + alpha * m.b.getD i 0 = 32767 →
          mr.y[i]? = some 32767 ∧ mv.y[i]? = some 32767) ∧
        (m.a.getD i 0 + alpha * m.b.getD i 0 = 32768 →
          mr.y[i]? = some 32767 ∧ mv.y[i]? = some 32767) ∧
        (m.a.getD i 0 + alpha * m.b.getD i 0 = -32768 →
          mr.y[i]? = some (-32768) ∧ mv.y[i]? = some (-32768)) ∧
        (m.a.getD i 0 + alpha * m.b.getD i 0 = -32769 →
          mr.y[i]? = some (-32768) ∧ mv.y[i]? = some (-32768)) := by
  refine ⟨by decide, ?_⟩
  obtain ⟨mr, er, sr⟩ := q15_axpy_ref_span m n alpha hn ha hb hy
  obtain ⟨mv, ev, sv⟩ := q15_axpy_rvv_span bld hv { m with y := y1 } n alpha hn hal
    ha hb hy1 ia ib
  refine ⟨mr, mv, er, ev, ?_⟩
  intro i hi
  have e1 : mr.y[i]? = some (clamp (m.a.getD i 0 + alpha * m.b.getD i 0) (-32768) 32767) := by
    rw [sr.y_get, if_pos ⟨Nat.zero_le _, hi⟩,
      axpyAt_eq_clamp m hal (by omega) (by omega) ia ib]
  have e2 : mv.y[i]? = some (clamp (m.a.getD i 0 + alpha * m.b.getD i 0) (-32768) 32767) := by
    rw [sv.y_get, if_pos ⟨Nat.zero_le _, hi⟩, ← axpyAt_eq_clamp m hal (by omega) (by omega) ia ib]
    rfl
  rw [e1, e2]
  refine ⟨?_, ?_, ?_, ?_⟩ <;> intro h <;> rw [h] <;> decide

/-- Witness for C3: the four boundary accumulators, in strips of three
lanes. -/
theorem saturation_boundary_witness :
    (sat_q15_scalar 32767 = 32767 ∧ sat_q15_scalar 32768 = 32767 ∧
      sat_q15_scalar (-32768) = -32768 ∧ sat_q15_scalar (-32769) = -32768) ∧
    ∃ mr mv, q15_axpy_ref boundaryMem 4 2 = some mr ∧
      q15_axpy_rvv (Build.native (vsetvl_e16m1 3)) { boundaryMem with y := [9, 9, 9, 9] } 4 2
        = some mv ∧
      ∀ i, i < (4 : Int).toNat →
        (boundaryMem.a.getD i 0 + 2 * boundaryMem.b.getD i 0 = 32767 →
          mr.y[i]? = some 32767 ∧ mv.y[i]? = some 32767) ∧
        (boundaryMem.a.getD i 0 + 2 * boundaryMem.b.getD i 0 = 32768 →
          mr.y[i]? = some 32767 ∧ mv.y[i]? = some 32767) ∧
        (boundaryMem.a.getD i 0 + 2 * boundaryMem.b.getD i 0 = -32768 →
          mr.y[i]? = some (-32768) ∧ mv.y[i]? = some (-32768)) ∧
        (boundaryMem.a.getD i 0 + 2 * boundaryMem.b.getD i 0 = -32769 →
          mr.y[i]? = some (-32768) ∧ mv.y[i]? = some (-32768)) :=
  saturation_boundary (Build.native (vsetvl_e16m1 3)) boundaryMem [9, 9, 9, 9] 4 2
    (fun _ h => by cases h; exact validVsetvl_e16m1 3 (by decide))
    (by decide) (by decide) (by decide) (by decide) (by decide) (by decide) (by decide)
    (by decide)

theorem Span.scenario_y {m' : Mem} {y : List Int} (hy : y.length = 4)
    (s : Span 3 0 4 (scenarioMem y) m') : m'.y = [0, 32767, -32765, -50] := by
  have hl : m'.y.length = 4 := by rw [s.y_len]; exact hy
  apply List.ext_getElem?
  intro j
  rw [s.y_get]
  have e : ∀ k, axpyAt (scenarioMem y) 3 k = axpyAt (scenarioMem []) 3 k := fun _ => rfl
  rcases j with _ | _ | _ | _ | j
  · rw [if_pos (by omega), e]; decide
  · rw [if_pos (by omega), e]; decide
  · rw [if_pos (by omega), e]; decide
  · rw [if_pos (by omega), e]; decide
  · rw [if_neg (by omega)]
    have : (scenarioMem y).y = y := rfl
    rw [this, List.getElem?_eq_none (by omega), List.getElem?_eq_none (by simp)]

/-- C4: with `n = 4`, `a = [0, 32767, -32768, 100]`, `b = [0, 1, 1, -50]` and
`alpha = 3`, `q15_axpy_ref` and `q15_axpy_rvv` (either build, any admissible
`vsetvl`) both return with `y = [0, 32767, -32765, -50]`, whatever the
four-element output buffers held before. -/
theorem scenario_output (bld : Build) (y0 y1 : List Int)
    (hv : ∀ vsetvl, bld = Build.native vsetvl → ValidVsetvl vsetvl)
    (h0 : y0.length = 4) (h1 : y1.length = 4) :
    (q15_axpy_ref (scenarioMem y0) 4 3).map Mem.y = some [0, 32767, -32765, -50] ∧
    (q15_axpy_rvv bld (scenarioMem y1) 4 3).map Mem.y = some [0, 32767, -32765, -50] := by
  have la : ∀ y, (4 : Int).toNat ≤ (scenarioMem y).a.length := fun _ => by
    show (4 : Int).toNat ≤ 4; decide
  have lb : ∀ y, (4 : Int).toNat ≤ (scenarioMem y).b.length := fun _ => by
    show (4 : Int).toNat ≤ 4; decide
  have ly : ∀ y, y.length = 4 → (4 : Int).toNat ≤ (scenarioMem y).y.length := fun y h => by
    show (4 : Int).toNat ≤ y.length; rw [h]; decide
  have ia : ∀ y, ∀ x ∈ (scenarioMem y).a, isInt16 x := fun _ => by
    show ∀ x ∈ [0, 32767, -32768, 100], isInt16 x; decide
  have ib : ∀ y, ∀ x ∈ (scenarioMem y).b, isInt16 x := fun _ => by
    show ∀ x ∈ [0, 1, 1, -50], isInt16 x; decide
  obtain ⟨mr, er, sr⟩ := q15_axpy_ref_span (scenarioMem y0) 4 3 (by decide) (la y0) (lb y0)
    (ly y0 h0)
  obtain ⟨mv, ev, sv⟩ := q15_axpy_rvv_span bld hv (scenarioMem y1) 4 3 (by decide) (by decide)
    (la y1) (lb y1) (ly y1 h1) (ia y1) (ib y1)
  rw [er, ev]
  exact ⟨congrArg some (sr.scenario_y h0), congrArg some (sv.scenario_y h1)⟩

/-- Witness for C4: the native build in strips of three lanes. -/
theorem scenario_output_witness :
    (q15_axpy_ref (scenarioMem [7, 7, 7, 7]) 4 3).map Mem.y = some [0, 32767, -32765, -50] ∧
    (q15_axpy_rvv (Build.native (vsetvl_e16m1 3)) (scenarioMem [1, 2, 3, 4]) 4 3).map Mem.y
      = some [0, 32767, -32765, -50] :=
  scenario_output (Build.native (vsetvl_e16m1 3)) [7, 7, 7, 7] [1, 2, 3, 4]
    (fun _ h => by cases h; exact validVsetvl_e16m1 3 (by decide)) (by decide) (by decide)

/-- C5: on `int16_t` buffers holding at least `n` elements, `verify_equal`
returns; its result is 1 if and only if `ref[i] = test[i]` for every `i < n`
(and is 0 otherwise), and the value stored in `max_diff` is the maximum over
`i < n` of `|ref[i] - test[i]|` taken over the integers: it bounds every such
difference and is attained by one of them, or is 0 when there is none. -/
theorem verify_equal_spec (ref test : List Int) (n : Int) (hn : n ≤ 2147483647)
    (lr : n.toNat ≤ ref.length) (lt : n.toNat ≤ test.length)
    (ir : ∀ x ∈ ref, isInt16 x) (it : ∀ x ∈ test, isInt16 x) :
    ∃ ok md, verify_equal ref test n = some (ok, md) ∧
      (ok = 1 ∨ ok = 0) ∧
      (ok = 1 ↔ ∀ i, i < n.toNat → ref.getD i 0 = test.getD i 0) ∧
      (∀ i, i < n.toNat → |ref.getD i 0 - test.getD i 0| ≤ md) ∧
      ((n.toNat = 0 ∧ md = 0) ∨
        ∃ i, i < n.toNat ∧ md = |ref.getD i 0 - test.getD i 0|) := by
  obtain ⟨ok, md, e, p⟩ := verify_equal_post ref test n hn lr lt ir it
  exact ⟨ok, md, e, p⟩

/-- Witness for C5: the two extreme samples against each other. -/
theorem verify_equal_spec_witness :
    ∃ ok md, verify_equal [5, 32767, -3] [5, -32768, 4] 3 = some (ok, md) ∧
      (ok = 1 ∨ ok = 0) ∧
      (ok = 1 ↔ ∀ i, i < (3 : Int).toNat →
        [5, 32767, -3].getD i (0 : Int) = [5, -32768, 4].getD i 0) ∧
      (∀ i, i < (3 : Int).toNat →
        |[5, 32767, -3].getD i (0 : Int) - [5, -32768, 4].getD i 0| ≤ md) ∧
      (((3 : Int).toNat = 0 ∧ md = 0) ∨
        ∃ i, i < (3 : Int).toNat ∧
          md = |[5, 32767, -3].getD i (0 : Int) - [5, -32768, 4].getD i 0|) :=
  verify_equal_spec [5, 32767, -3] [5, -32768, 4] 3 (by decide) (by decide) (by decide)
    (by decide) (by decide)

/-- C6: with `N = 4096` and `alpha = 3`, for every content of the `int16_t`
buffers `a` and `b`, both kernels return and `verify_equal` applied to their
outputs returns `ok = 1` with `max_diff = 0`; in the harness, whatever values
`rand` delivers (those of seed 1234 among them), the verifier returns
`(1, 0)`, `main` exits with status 0 and the verification line reads OK (with
max diff 0 where it is printed).  In the first part `a` and `b` are the kernel
inputs; in the second they are what the freshly allocated buffers hold before
the fill loop overwrites them. -/
theorem zero_difference (tgt : Target) (rand : Nat → Int) (a b y0 y1 : List Int)
    (hv : tgt.Valid) (la : a.length = 4096) (lb : b.length = 4096)
    (l0 : y0.length = 4096) (l1 : y1.length = 4096)
    (ia : ∀ x ∈ a, isInt16 x) (ib : ∀ x ∈ b, isInt16 x) :
    (∃ mr mv, q15_axpy_ref ⟨a, b, y0, []⟩ N 3 = some mr ∧
      q15_axpy_rvv tgt.build ⟨a, b, y1, []⟩ N 3 = some mv ∧
      verify_equal mr.y mv.y N = some (1, 0)) ∧
    run_and_verify tgt rand a b y0 y1 = some (1, 0) ∧
    ∃ out, main tgt rand (some a) (some b) (some y0) (some y1) = some out ∧
      out.status = 0 ∧
      (Line.nonRiscv Verdict.OK ∈ out.stdout ∨ Line.verifyRVV Verdict.OK 0 ∈ out.stdout) := by
  refine ⟨?_, run_and_verify_ok tgt rand a b y0 y1 hv la lb l0 l1, ?_⟩
  · obtain ⟨mr, mv, er, ev, ea, eb, e⟩ := verify_kernels tgt.build a b y0 y1 N 3 hv (by decide)
      (by decide) (le_of_eq la.symm) (le_of_eq lb.symm) l0 l1 ia ib
    rw [ea, eb] at ev
    exact ⟨mr, mv, er, ev, e⟩
  · rw [main_of_allocated, run_and_verify_ok tgt rand a b y0 y1 hv la lb l0 l1]
    exact ⟨_, rfl, rfl, report_ok tgt⟩

/-- Witness for C6: a native RISC-V build with eight lanes per strip, all
buffers zero-filled by the allocator, a linear congruential `rand`. -/
theorem zero_difference_witness :
    (∃ mr mv,
      q15_axpy_ref ⟨List.replicate 4096 0, List.replicate 4096 0, List.replicate 4096 0, []⟩ N 3
        = some mr ∧
      q15_axpy_rvv (Target.riscv (Build.native (vsetvl_e16m1 8)) 0 9000 9100 10000).build
        ⟨List.replicate 4096 0, List.replicate 4096 0, List.replicate 4096 0, []⟩ N 3 = some mv ∧
      verify_equal mr.y mv.y N = some (1, 0)) ∧
    run_and_verify (Target.riscv (Build.native (vsetvl_e16m1 8)) 0 9000 9100 10000)
      (fun k => (1103515245 * k + 12345) % 2147483648)
      (List.replicate 4096 0) (List.replicate 4096 0) (List.replicate 4096 0)
      (List.replicate 4096 0) = some (1, 0) ∧
    ∃ out, main (Target.riscv (Build.native (vsetvl_e16m1 8)) 0 9000 9100 10000)
        (fun k => (1103515245 * k + 12345) % 2147483648)
        (some (List.replicate 4096 0)) (some (List.replicate 4096 0))
        (some (List.replicate 4096 0)) (some (List.replicate 4096 0)) = some out ∧
      out.status = 0 ∧
      (Line.nonRiscv Verdict.OK ∈ out.stdout ∨ Line.verifyRVV Verdict.OK 0 ∈ out.stdout) :=
  zero_difference (Target.riscv (Build.native (vsetvl_e16m1 8)) 0 9000 9100 10000)
    (fun k => (1103515245 * k + 12345) % 2147483648)
    (List.replicate 4096 0) (List.replicate 4096 0) (List.replicate 4096 0)
    (List.replicate 4096 0)
    (fun _ h => by cases h; exact validVsetvl_e16m1 8 (by decide))
    (List.length_replicate _ _) (List.length_replicate _ _) (List.length_replicate _ _)
    (List.length_replicate _ _)
    (fun x hx => by rw [List.eq_of_mem_replicate hx]; decide)
    (fun x hx => by rw [List.eq_of_mem_replicate hx]; decide)

theorem widen_macc_exact (va vb : List Int) (alpha : Int) (vl : Nat)
    (hal : isInt16 alpha) (la : va.length = vl) (lb : vb.length = vl)
    (ia : ∀ x ∈ va, isInt16 x) (ib : ∀ x ∈ vb, isInt16 x) :
    vwmacc_vx (vwadd_vx va 0 vl) alpha vb vl =
      List.zipWith (fun x y => x + alpha * y) va vb := by
  apply List.ext_getElem
  · simp [vwmacc_vx, vwadd_vx]
    omega
  · intro k h1 h2
    simp only [vwmacc_vx, vwadd_vx, List.getElem_map, List.getElem_take, List.getElem_zipWith]
    have hk : k < vl := by
      simp only [List.length_zipWith] at h2
      omega
    have hka : k < va.length := by omega
    have hkb : k < vb.length := by omega
    have ha : isInt16 va[k] := ia _ (List.getElem_mem _)
    have hb : isInt16 vb[k] := ib _ (List.getElem_mem _)
    have hm := mul_bounds hal hb
    have hs := acc_bounds ha hal hb
    rw [Int.add_zero, toInt32_of_isInt32 (isInt32_of_isInt16 ha),
      toInt32_of_isInt32 (v := alpha * _) (by unfold isInt32; omega),
      toInt32_of_isInt32 (by unfold isInt32; omega), Int.add_comm]

/-- C7: for `int16_t` values `a`, `alpha`, `b` the exact integer
`a + alpha*b` lies in `[-1073741824, 1073774591]`, inside the `int32_t`
range; so the `int32_t` accumulator of `q15_axpy_ref` equals it, and so does
every 32-bit lane produced by `vwadd.vx` followed by `vwmacc.vx` in
`q15_axpy_rvv`. -/
theorem acc_no_overflow (ai alpha bi : Int) (va vb : List Int) (vl : Nat)
    (ha : isInt16 ai) (hal : isInt16 alpha) (hb : isInt16 bi)
    (la : va.length = vl) (lb : vb.length = vl)
    (ia : ∀ x ∈ va, isInt16 x) (ib : ∀ x ∈ vb, isInt16 x) :
    (-1073741824 ≤ ai + alpha * bi ∧ ai + alpha * bi ≤ 1073774591) ∧
    isInt32 (ai + alpha * bi) ∧
    acc32 ai alpha bi = ai + alpha * bi ∧
    vwmacc_vx (vwadd_vx va 0 vl) alpha vb vl =
      List.zipWith (fun x y => x + alpha * y) va vb := by
  have h := acc_bounds ha hal hb
  exact ⟨h, by unfold isInt32; omega, acc32_exact ha hal hb,
    widen_macc_exact va vb alpha vl hal la lb ia ib⟩

/-- Witness for C7: the largest accumulator as a scalar, both extremes as
lanes. -/
theorem acc_no_overflow_witness :
    (-1073741824 ≤ (32767 : Int) + (-32768) * (-32768) ∧
      (32767 : Int) + (-32768) * (-32768) ≤ 1073774591) ∧
    isInt32 (32767 + (-32768) * (-32768)) ∧
    acc32 32767 (-32768) (-32768) = 32767 + (-32768) * (-32768) ∧
    vwmacc_vx (vwadd_vx [32767, -32768] 0 2) (-32768) [-32768, 32767] 2 =
      List.zipWith (fun x y => x + (-32768) * y) [32767, -32768] [-32768, 32767] :=
  acc_no_overflow 32767 (-32768) (-32768) [32767, -32768] [-32768, 32767] 2
    (by decide) (by decide) (by decide) rfl rfl (by decide) (by decide)

/-! ## Frame -/

theorem Span.frame {alpha : Int} {k : Nat} {m m' : Mem} (s : Span alpha 0 k m m') :
    Frame k m m' := by
  refine ⟨s.a_eq, s.b_eq, s.y_len, ?_, s.trace⟩
  intro j hj
  rw [s.y_get, if_neg (by omega)]

theorem Span.eq_of_empty {alpha : Int} {lo : Nat} {m m' : Mem} (s : Span alpha lo lo m m') :
    m' = m := by
  obtain ⟨t, e, p⟩ := s.trace
  have ht : t = [] := by
    cases t with
    | nil => rfl
    | cons x t =>
      exfalso
      have hx := p x (List.mem_cons_self x t)
      cases x with
      | load q i =>
        cases q
        all_goals simp only [Access.inSpan] at hx
        all_goals omega
      | store q i =>
        cases q
        all_goals simp only [Access.inSpan] at hx
        all_goals omega
  have hy : m'.y = m.y := by
    apply List.ext_getElem?
    intro j
    rw [s.y_get, if_neg (by omega)]
  have ha := s.a_eq
  have hb := s.b_eq
  rw [ht, List.append_nil] at e
  cases m
  cases m'
  simp only at ha hb hy e
  rw [ha, hb, hy, e]

/-- C8: for every `n` and buffers holding at least `n` elements (`y`
separate from `a` and `b`), `q15_axpy_ref` and `q15_axpy_rvv` (either build)
return; every access they perform is a read of `a` or `b` or a write of `y`
at an index in `[0, n)`; `a`, `b` and the length of `y` are unchanged, and so
is `y[j]` for every `j ≥ n`; with `n ≤ 0` no access is performed and the
memory is left exactly as it was. -/
theorem kernels_frame (bld : Build) (m : Mem) (n alpha : Int)
    (hv : ∀ vsetvl, bld = Build.native vsetvl → ValidVsetvl vsetvl)
    (hn : n ≤ 2147483647) (hal : isInt16 alpha)
    (ha : n.toNat ≤ m.a.length) (hb : n.toNat ≤ m.b.length) (hy : n.toNat ≤ m.y.length)
    (ia : ∀ x ∈ m.a, isInt16 x) (ib : ∀ x ∈ m.b, isInt16 x) :
    ∃ mr mv, q15_axpy_ref m n alpha = some mr ∧ q15_axpy_rvv bld m n alpha = some mv ∧
      (mr.a = m.a ∧ mr.b = m.b ∧ mr.y.length = m.y.length ∧
        (∀ j, n.toNat ≤ j → mr.y[j]? = m.y[j]?) ∧
        ∃ t, mr.trace = m.trace ++ t ∧ ∀ x ∈ t, Access.inSpan 0 n.toNat x) ∧
      (mv.a = m.a ∧ mv.b = m.b ∧ mv.y.length = m.y.length ∧
        (∀ j, n.toNat ≤ j → mv.y[j]? = m.y[j]?) ∧
        ∃ t, mv.trace = m.trace ++ t ∧ ∀ x ∈ t, Access.inSpan 0 n.toNat x) ∧
      (n ≤ 0 → mr = m ∧ mv = m) := by
  obtain ⟨mr, er, sr⟩ := q15_axpy_ref_span m n alpha hn ha hb hy
  obtain ⟨mv, ev, sv⟩ := q15_axpy_rvv_span bld hv m n alpha hn hal ha hb hy ia ib
  refine ⟨mr, mv, er, ev, sr.frame, sv.frame, ?_⟩
  intro h0
  have e : n.toNat = 0 := by omega
  rw [e] at sr sv
  exact ⟨sr.eq_of_empty, sv.eq_of_empty⟩

/-- Witness for C8: five elements into a six-element output buffer, native
build in strips of two lanes. -/
theorem kernels_frame_witness :
    ∃ mr mv, q15_axpy_ref stripMem 5 3 = some mr ∧
      q15_axpy_rvv (Build.native (vsetvl_e16m1 2)) stripMem 5 3 = some mv ∧
      (mr.a = stripMem.a ∧ mr.b = stripMem.b ∧ mr.y.length = stripMem.y.length ∧
        (∀ j, (5 : Int).toNat ≤ j → mr.y[j]? = stripMem.y[j]?) ∧
        ∃ t, mr.trace = stripMem.trace ++ t ∧ ∀ x ∈ t, Access.inSpan 0 (5 : Int).toNat x) ∧
      (mv.a = stripMem.a ∧ mv.b = stripMem.b ∧ mv.y.length = stripMem.y.length ∧
        (∀ j, (5 : Int).toNat ≤ j → mv.y[j]? = stripMem.y[j]?) ∧
        ∃ t, mv.trace = stripMem.trace ++ t ∧ ∀ x ∈ t, Access.inSpan 0 (5 : Int).toNat x) ∧
      ((5 : Int) ≤ 0 → mr = stripMem ∧ mv = stripMem) :=
  kernels_frame (Build.native (vsetvl_e16m1 2)) stripMem 5 3
    (fun _ h => by cases h; exact validVsetvl_e16m1 2 (by decide))
    (by decide) (by decide) (by decide) (by decide) (by decide) (by decide) (by decide)

theorem run_and_verify_eq_with (tgt : Target) (rand : Nat → Int) (a b y0 y1 : List Int) :
    run_and_verify tgt rand a b y0 y1 =
      run_and_verify_with (q15_axpy_rvv tgt.build) rand a b y0 y1 := rfl

theorem main_eq_main_with (tgt : Target) (rand : Nat → Int) (a b y0 y1 : Option (List Int)) :
    main tgt rand a b y0 y1 = main_with (q15_axpy_rvv tgt.build) tgt rand a b y0 y1 := rfl

theorem main_with_of_allocated (rvv : Mem → Int → Int → Option Mem) (tgt : Target)
    (rand : Nat → Int) (a b y0 y1 : List Int) :
    main_with rvv tgt rand (some a) (some b) (some y0) (some y1) =
      (run_and_verify_with rvv rand a b y0 y1).map fun r =>
        { status := if r.1 ≠ 0 then 0 else 1
          stdout := tgt.report r.1 r.2
          calls := [Call.srand 1234, Call.q15_axpy_ref, Call.q15_axpy_rvv, Call.verify_equal,
            Call.free, Call.free, Call.free, Call.free] } := by
  unfold main_with
  dsimp only
  cases run_and_verify_with rvv rand a b y0 y1 <;> rfl

theorem main_with_of_null (rvv : Mem → Int → Int → Option Mem) (tgt : Target)
    (rand : Nat → Int) (a b y0 y1 : Option (List Int))
    (h : a = none ∨ b = none ∨ y0 = none ∨ y1 = none) :
    main_with rvv tgt rand a b y0 y1 = some { status := 1, stdout := [], calls := [] } := by
  unfold main_with
  cases a <;> cases b <;> cases y0 <;> cases y1 <;> simp at h ⊢

theorem allocated_of_not_null {a b y0 y1 : Option (List Int)}
    (h : ¬ (a = none ∨ b = none ∨ y0 = none ∨ y1 = none)) :
    ∃ a' b' y0' y1', a = some a' ∧ b = some b' ∧ y0 = some y0' ∧ y1 = some y1' := by
  cases a with
  | none => exact absurd (Or.inl rfl) h
  | some a' =>
    cases b with
    | none => exact absurd (Or.inr (Or.inl rfl)) h
    | some b' =>
      cases y0 with
      | none => exact absurd (Or.inr (Or.inr (Or.inl rfl))) h
      | some y0' =>
        cases y1 with
        | none => exact absurd (Or.inr (Or.inr (Or.inr rfl))) h
        | some y1' => exact ⟨a', b', y0', y1', rfl, rfl, rfl, rfl⟩

theorem VerifyPost.of_mismatch {ref test : List Int} {k : Nat} {ok md : Int}
    (p : VerifyPost ref test k ok md) {i : Nat} (hi : i < k)
    (h : ref.getD i 0 ≠ test.getD i 0) : ok = 0 := by
  obtain ⟨h1, h2, _, _⟩ := p
  rcases h1 with h1 | h1
  · exact absurd (h2.mp h1 i hi) h
  · exact h1

theorem forall_mem_set {l : List Int} {i : Nat} {v : Int} (hv : isInt16 v)
    (h : ∀ x ∈ l, isInt16 x) : ∀ x ∈ l.set i v, isInt16 x := by
  intro x hx
  rcases List.mem_or_eq_of_mem_set hx with hx | hx
  · exact h x hx
  · rw [hx]; exact hv

/-- On the faulty kernel the verifier is reached and returns `ok = 0`. -/
theorem run_and_verify_with_faulty (rand : Nat → Int) (a b y0 y1 : List Int)
    (la : a.length = 4096) (lb : b.length = 4096)
    (l0 : y0.length = 4096) (l1 : y1.length = 4096) :
    ∃ md, run_and_verify_with faultyKernel rand a b y0 y1 = some (0, md) := by
  obtain ⟨a', b', ef, la', lb', _, _⟩ := fill_loop_post rand (N.toNat + 1) 0 0 a b
    (by decide) (by omega) la lb (fun j hj => by omega) (fun j hj => by omega)
  have ef' : fill_loop rand (N.toNat + 1) 0 0 a b = some (a', b') := ef
  obtain ⟨mr, er, sr⟩ := q15_axpy_ref_span ⟨a', b', y0, []⟩ N 3 (by decide)
    (le_of_eq la'.symm) (le_of_eq lb'.symm) (le_of_eq l0.symm)
  have ea : mr.a = a' := sr.a_eq
  have eb : mr.b = b' := sr.b_eq
  obtain ⟨m2, e2, s2⟩ := q15_axpy_ref_span ⟨mr.a, mr.b, y1, []⟩ N 3 (by decide)
    (by rw [ea]; exact le_of_eq la'.symm) (by rw [eb]; exact le_of_eq lb'.symm)
    (le_of_eq l1.symm)
  have hN : N.toNat = 4096 := rfl
  have hlr : mr.y.length = 4096 := sr.y_len.trans l0
  have hl2 : m2.y.length = 4096 := s2.y_len.trans l1
  have hx : m2.y.getD 0 0 = mr.y.getD 0 0 := by
    rw [sr.getD_y (by decide), s2.getD_y (by decide)]
    exact @axpyAt_congr ⟨a', b', y0, []⟩ ⟨mr.a, mr.b, y1, []⟩ ea eb 3 0
  have ev : faultyKernel ⟨mr.a, mr.b, y1, []⟩ N 3 =
      some { m2 with y := m2.y.set 0 (if m2.y.getD 0 0 = 0 then 1 else 0) } := by
    unfold faultyKernel
    rw [e2]
    rfl
  have hv : isInt16 (if m2.y.getD 0 0 = 0 then 1 else 0) := by
    split <;> decide
  obtain ⟨ok, md, e, p⟩ := verify_equal_post mr.y
    (m2.y.set 0 (if m2.y.getD 0 0 = 0 then 1 else 0)) N (by decide)
    (by rw [hlr, hN]) (by rw [List.length_set, hl2, hN])
    (sr.y_isInt16 l0) (forall_mem_set hv (s2.y_isInt16 l1))
  have hok : ok = 0 := by
    apply p.of_mismatch (i := 0) (by decide)
    rw [List.getD_eq_getElem?_getD (m2.y.set 0 _), List.getElem?_set_self (by omega),
      Option.getD_some, hx]
    split <;> omega
  refine ⟨md, ?_⟩
  unfold run_and_verify_with
  rw [ef']
  dsimp only
  rw [er]
  dsimp only
  rw [ev]
  dsimp only
  rw [e, hok]

/-- C9: `main` is `main_with` at the repository's `q15_axpy_rvv`; and for every
implementation `rvv` of the kernel under test:
`main_with` returns whenever an allocation failed or the verifier was reached
and returned; whenever it returns, its status is 0 or 1; the status is 0 if
and only if all four allocations succeeded and `verify_equal`, run on the
outputs of the two kernels, returned a non-zero `ok`; and it is 1 if and only
if an allocation failed or `verify_equal` returned `ok = 0`.  On an admissible
target, with each allocated buffer holding `N` elements, `main` itself
returns. -/
theorem main_exit_status (rvv : Mem → Int → Int → Option Mem) (tgt : Target)
    (rand : Nat → Int) (a b y0 y1 : Option (List Int)) :
    main tgt rand a b y0 y1 = main_with (q15_axpy_rvv tgt.build) tgt rand a b y0 y1 ∧
    (((a = none ∨ b = none ∨ y0 = none ∨ y1 = none) ∨
        ∃ a' b' y0' y1' ok md, a = some a' ∧ b = some b' ∧ y0 = some y0' ∧ y1 = some y1' ∧
          run_and_verify_with rvv rand a' b' y0' y1' = some (ok, md)) →
      ∃ out, main_with rvv tgt rand a b y0 y1 = some out) ∧
    (∀ out, main_with rvv tgt rand a b y0 y1 = some out →
      (out.status = 0 ∨ out.status = 1) ∧
      (out.status = 0 ↔
        ∃ a' b' y0' y1' ok md, a = some a' ∧ b = some b' ∧ y0 = some y0' ∧ y1 = some y1' ∧
          run_and_verify_with rvv rand a' b' y0' y1' = some (ok, md) ∧ ok ≠ 0) ∧
      (out.status = 1 ↔
        (a = none ∨ b = none ∨ y0 = none ∨ y1 = none) ∨
        ∃ a' b' y0' y1' md, a = some a' ∧ b = some b' ∧ y0 = some y0' ∧ y1 = some y1' ∧
          run_and_verify_with rvv rand a' b' y0' y1' = some (0, md))) ∧
    (tgt.Valid → (∀ l, a = some l → l.length = 4096) → (∀ l, b = some l → l.length = 4096) →
      (∀ l, y0 = some l → l.length = 4096) → (∀ l, y1 = some l → l.length = 4096) →
      ∃ out, main tgt rand a b y0 y1 = some out) := by
  refine ⟨main_eq_main_with tgt rand a b y0 y1, ?_, ?_, ?_⟩
  · rintro (h | ⟨a', b', y0', y1', ok, md, ea, eb, e0, e1, er⟩)
    · exact ⟨_, main_with_of_null rvv tgt rand a b y0 y1 h⟩
    · subst ea eb e0 e1
      rw [main_with_of_allocated, er]
      exact ⟨_, rfl⟩
  · intro out e
    by_cases h : a = none ∨ b = none ∨ y0 = none ∨ y1 = none
    · rw [main_with_of_null rvv tgt rand a b y0 y1 h] at e
      rw [← Option.some.inj e]
      refine ⟨Or.inr rfl, ?_, ?_⟩
      · constructor
        · intro h0; exact absurd h0 (by decide)
        · rintro ⟨a', b', y0', y1', ok, md, ea, eb, e0, e1, _⟩
          rw [ea, eb, e0, e1] at h
          simp at h
      · exact ⟨fun _ => Or.inl h, fun _ => rfl⟩
    · obtain ⟨a', b', y0', y1', ea, eb, e0, e1⟩ := allocated_of_not_null h
      subst ea eb e0 e1
      rw [main_with_of_allocated] at e
      cases hrv : run_and_verify_with rvv rand a' b' y0' y1' with
      | none => rw [hrv] at e; exact absurd e (by simp)
      | some r =>
        rw [hrv] at e
        rw [← Option.some.inj e]
        by_cases c : r.1 ≠ 0
        · refine ⟨Or.inl (if_pos c), ⟨fun _ => ?_, fun _ => if_pos c⟩, ⟨fun h1 => ?_, ?_⟩⟩
          · exact ⟨a', b', y0', y1', r.1, r.2, rfl, rfl, rfl, rfl, hrv, c⟩
          · simp only [if_pos c] at h1
            exact absurd h1 (by decide)
          · rintro (h1 | ⟨a2, b2, y2, y3, md, ea, eb, e0, e1, er⟩)
            · exact absurd h1 h
            · cases ea; cases eb; cases e0; cases e1
              rw [hrv] at er
              exact absurd (congrArg Prod.fst (Option.some.inj er)) c
        · have c0 : r.1 = 0 := not_not.mp c
          refine ⟨Or.inr (if_neg c), ⟨fun h0 => ?_, ?_⟩, ⟨fun _ => Or.inr ?_, fun _ => if_neg c⟩⟩
          · simp only [if_neg c] at h0
            exact absurd h0 (by decide)
          · rintro ⟨a2, b2, y2, y3, ok, md, ea, eb, e0, e1, er, hok⟩
            cases ea; cases eb; cases e0; cases e1
            rw [hrv] at er
            cases er
            exact absurd hok c
          · refine ⟨a', b', y0', y1', r.2, rfl, rfl, rfl, rfl, ?_⟩
            rw [hrv, ← c0]
  · intro hv la lb l0 l1
    by_cases h : a = none ∨ b = none ∨ y0 = none ∨ y1 = none
    · exact ⟨_, main_of_null tgt rand a b y0 y1 h⟩
    · obtain ⟨a', b', y0', y1', ea, eb, e0, e1⟩ := allocated_of_not_null h
      subst ea eb e0 e1
      rw [main_of_allocated, run_and_verify_ok tgt rand a' b' y0' y1' hv (la _ rfl) (lb _ rfl)
        (l0 _ rfl) (l1 _ rfl)]
      exact ⟨_, rfl⟩

/-- Witness for C9, on the host build with a linear congruential `rand`: with
all four allocations granted and the faulty kernel under test the verifier
fails and the harness exits with 1; with the repository's kernel `main` exits
with 0; with the third allocation refused `main` exits with 1. -/
theorem main_exit_status_witness :
    (∃ out, main_with faultyKernel Target.host lcgRand (some zeroBuf) (some zeroBuf)
      (some zeroBuf) (some zeroBuf) = some out ∧ out.status = 1) ∧
    (∃ out, main Target.host lcgRand (some zeroBuf) (some zeroBuf) (some zeroBuf)
      (some zeroBuf) = some out ∧ out.status = 0) ∧
    (∃ out, main Target.host lcgRand (some zeroBuf) (some zeroBuf) none (some zeroBuf)
      = some out ∧ out.status = 1) := by
  have hl : zeroBuf.length = 4096 := List.length_replicate _ _
  refine ⟨?_, ?_, ?_⟩
  · obtain ⟨md, hmd⟩ := run_and_verify_with_faulty lcgRand zeroBuf zeroBuf zeroBuf zeroBuf
      hl hl hl hl
    obtain ⟨_, hret, hst, _⟩ := main_exit_status faultyKernel Target.host lcgRand
      (some zeroBuf) (some zeroBuf) (some zeroBuf) (some zeroBuf)
    obtain ⟨out, e⟩ := hret
      (Or.inr ⟨zeroBuf, zeroBuf, zeroBuf, zeroBuf, 0, md, rfl, rfl, rfl, rfl, hmd⟩)
    exact ⟨out, e, (hst out e).2.2.mpr
      (Or.inr ⟨zeroBuf, zeroBuf, zeroBuf, zeroBuf, md, rfl, rfl, rfl, rfl, hmd⟩)⟩
  · obtain ⟨hlink, _, hst, hmain⟩ := main_exit_status (q15_axpy_rvv Target.host.build)
      Target.host lcgRand (some zeroBuf) (some zeroBuf) (some zeroBuf) (some zeroBuf)
    obtain ⟨out, e⟩ := hmain (fun _ h => by cases h)
      (fun _ h => by cases h; exact hl) (fun _ h => by cases h; exact hl)
      (fun _ h => by cases h; exact hl) (fun _ h => by cases h; exact hl)
    have hrv : run_and_verify_with (q15_axpy_rvv Target.host.build) lcgRand zeroBuf zeroBuf
        zeroBuf zeroBuf = some (1, 0) :=
      (run_and_verify_eq_with Target.host lcgRand zeroBuf zeroBuf zeroBuf zeroBuf).symm.trans
        (run_and_verify_ok Target.host lcgRand zeroBuf zeroBuf zeroBuf zeroBuf
          (fun _ h => by cases h) hl hl hl hl)
    have h1 : (1 : Int) ≠ 0 := by decide
    exact ⟨out, e, (hst out (hlink.symm.trans e)).2.1.mpr
      ⟨zeroBuf, zeroBuf, zeroBuf, zeroBuf, 1, 0, rfl, rfl, rfl, rfl, hrv, h1⟩⟩
  · obtain ⟨hlink, hret, hst, _⟩ := main_exit_status (q15_axpy_rvv Target.host.build)
      Target.host lcgRand (some zeroBuf) (some zeroBuf) none (some zeroBuf)
    obtain ⟨out, e⟩ := hret (Or.inl (Or.inr (Or.inr (Or.inl rfl))))
    exact ⟨out, hlink.trans e, (hst out e).2.2.mpr (Or.inl (Or.inr (Or.inr (Or.inl rfl))))⟩

/-- C10: if any one of the four allocations returns null, `main` returns 1
having made none of its later calls (neither kernel, nor the verifier) and
having printed nothing. -/
theorem alloc_failure_fatal (tgt : Target) (rand : Nat → Int) (a b y0 y1 : Option (List Int))
    (h : a = none ∨ b = none ∨ y0 = none ∨ y1 = none) :
    ∃ out, main tgt rand a b y0 y1 = some out ∧ out.status = 1 ∧ out.stdout = [] ∧
      out.calls = [] ∧ Call.q15_axpy_ref ∉ out.calls ∧ Call.q15_axpy_rvv ∉ out.calls ∧
      Call.verify_equal ∉ out.calls :=
  ⟨_, main_of_null tgt rand a b y0 y1 h, rfl, rfl, rfl, List.not_mem_nil _, List.not_mem_nil _,
    List.not_mem_nil _⟩

/-- Witness for C10: the third allocation fails on a RISC-V target. -/
theorem alloc_failure_fatal_witness :
    ∃ out, main (Target.riscv (Build.native (vsetvl_e16m1 8)) 0 9000 9100 10000)
        (fun k => (1103515245 * k + 12345) % 2147483648)
        (some (List.replicate 4096 0)) (some (List.replicate 4096 0)) none
        (some (List.replicate 4096 0)) = some out ∧ out.status = 1 ∧ out.stdout = [] ∧
      out.calls = [] ∧ Call.q15_axpy_ref ∉ out.calls ∧ Call.q15_axpy_rvv ∉ out.calls ∧
      Call.verify_equal ∉ out.calls :=
  alloc_failure_fatal (Target.riscv (Build.native (vsetvl_e16m1 8)) 0 9000 9100 10000)
    (fun k => (1103515245 * k + 12345) % 2147483648)
    (some (List.replicate 4096 0)) (some (List.replicate 4096 0)) none
    (some (List.replicate 4096 0)) (Or.inr (Or.inr (Or.inl rfl)))

/-- C11: on `int16_t` inputs the fallback build of `q15_axpy_rvv` and the
native build return the same output buffer, for every admissible `vsetvl` and
in particular for every number `vlmax > 0` of lanes per strip; hence any two
admissible chunk-size choices yield the same `y`.  The inputs are left as
they were by all of them. -/
theorem fallback_eq_native (vsetvl1 vsetvl2 : Nat → Nat) (m : Mem) (n alpha : Int)
    (hv1 : ValidVsetvl vsetvl1) (hv2 : ValidVsetvl vsetvl2)
    (hn : n ≤ 2147483647) (hal : isInt16 alpha)
    (ha : n.toNat ≤ m.a.length) (hb : n.toNat ≤ m.b.length) (hy : n.toNat ≤ m.y.length)
    (ia : ∀ x ∈ m.a, isInt16 x) (ib : ∀ x ∈ m.b, isInt16 x) :
    ∃ mf m1 m2, q15_axpy_rvv Build.fallback m n alpha = some mf ∧
      q15_axpy_rvv (Build.native vsetvl1) m n alpha = some m1 ∧
      q15_axpy_rvv (Build.native vsetvl2) m n alpha = some m2 ∧
      m1.y = mf.y ∧ m2.y = m1.y ∧
      (mf.a = m.a ∧ mf.b = m.b) ∧ (m1.a = m.a ∧ m1.b = m.b) ∧ (m2.a = m.a ∧ m2.b = m.b) ∧
      ∀ vlmax, 0 < vlmax →
        ∃ mv, q15_axpy_rvv (Build.native (vsetvl_e16m1 vlmax)) m n alpha = some mv ∧
          mv.y = mf.y := by
  obtain ⟨mf, ef, sf⟩ := q15_axpy_ref_span m n alpha hn ha hb hy
  obtain ⟨m1, e1, s1⟩ := q15_axpy_rvv_native_span vsetvl1 hv1 m n alpha hn hal ha hb hy ia ib
  obtain ⟨m2, e2, s2⟩ := q15_axpy_rvv_native_span vsetvl2 hv2 m n alpha hn hal ha hb hy ia ib
  refine ⟨mf, m1, m2, ef, e1, e2, s1.y_unique sf, s2.y_unique s1, ⟨sf.a_eq, sf.b_eq⟩,
    ⟨s1.a_eq, s1.b_eq⟩, ⟨s2.a_eq, s2.b_eq⟩, ?_⟩
  intro vlmax hvl
  obtain ⟨mv, ev, sv⟩ := q15_axpy_rvv_native_span (vsetvl_e16m1 vlmax)
    (validVsetvl_e16m1 vlmax hvl) m n alpha hn hal ha hb hy ia ib
  exact ⟨mv, ev, sv.y_unique sf⟩

/-- Witness for C11: five elements, strips of two lanes against strips of
three. -/
theorem fallback_eq_native_witness :
    ∃ mf m1 m2, q15_axpy_rvv Build.fallback stripMem 5 3 = some mf ∧
      q15_axpy_rvv (Build.native (vsetvl_e16m1 2)) stripMem 5 3 = some m1 ∧
      q15_axpy_rvv (Build.native (vsetvl_e16m1 3)) stripMem 5 3 = some m2 ∧
      m1.y = mf.y ∧ m2.y = m1.y ∧
      (mf.a = stripMem.a ∧ mf.b = stripMem.b) ∧ (m1.a = stripMem.a ∧ m1.b = stripMem.b) ∧
      (m2.a = stripMem.a ∧ m2.b = stripMem.b) ∧
      ∀ vlmax, 0 < vlmax →
        ∃ mv, q15_axpy_rvv (Build.native (vsetvl_e16m1 vlmax)) stripMem 5 3 = some mv ∧
          mv.y = mf.y :=
  fallback_eq_native (vsetvl_e16m1 2) (vsetvl_e16m1 3) stripMem 5 3
    (validVsetvl_e16m1 2 (by decide)) (validVsetvl_e16m1 3 (by decide))
    (by decide) (by decide) (by decide) (by decide) (by decide) (by decide) (by decide)

/-- C12: with shift amount 0 the rounding increment of every rounding mode is
0, so for every `v` the round-off leaves `v` as it is and the saturating
narrowing of `vnclip` (clip of the rounded value to 16 bits) equals
`sat_q15_scalar v`, lane by lane, for round-to-nearest-even as for the other
three modes. -/
theorem rounding_inert (mode : Vxrm) (v : Int) (vs : List Int) :
    roundIncrement mode v 0 = 0 ∧
    roundoff_signed mode v 0 = v ∧
    clip16 (roundoff_signed mode v 0) = sat_q15_scalar v ∧
    vnclip_wx [v] 0 mode 1 = [sat_q15_scalar v] ∧
    vnclip_wx vs 0 mode vs.length = vs.map sat_q15_scalar ∧
    vnclip_wx vs 0 mode vs.length = vnclip_wx vs 0 Vxrm.rne vs.length := by
  have h0 : ∀ (md : Vxrm) (w : Int), roundIncrement md w 0 = 0 := by
    intro md w
    cases md <;> simp [roundIncrement, bit, lowBitsNonzero]
  have h1 : ∀ (md : Vxrm) (w : Int), clip16 (roundoff_signed md w 0) = sat_q15_scalar w := by
    intro md w
    rw [roundoff_signed_zero, sat_q15_scalar_eq_clip16]
  have h2 : ∀ (md : Vxrm) (l : List Int), vnclip_wx l 0 md l.length = l.map sat_q15_scalar := by
    intro md l
    unfold vnclip_wx
    rw [List.take_length]
    exact List.map_congr_left (fun w _ => h1 md w)
  exact ⟨h0 mode v, roundoff_signed_zero mode v, h1 mode v, h2 mode [v], h2 mode vs,
    (h2 mode vs).trans (h2 Vxrm.rne vs).symm⟩

/-! ## The strips of the RVV loop -/

theorem q15_axpy_rvv_strips_step (vsetvl : Nat → Nat) (fuel : Nat) (n : Int) (off : Nat)
    (h0 : 0 < n) (hn : n ≤ 2147483647) (hvl : vsetvl n.toNat ≤ n.toNat) :
    q15_axpy_rvv_strips vsetvl (fuel + 1) n off =
      (q15_axpy_rvv_strips vsetvl fuel (n - (vsetvl n.toNat : Nat)) (off + vsetvl n.toNat)).map
        fun p => ((off, vsetvl n.toNat) :: p.1, p.2) := by
  rw [q15_axpy_rvv_strips, if_pos h0]
  dsimp only
  rw [toUInt64_toNat h0 hn, subVl_eq h0 hn hvl]
  cases q15_axpy_rvv_strips vsetvl fuel (n - (vsetvl n.toNat : Nat)) (off + vsetvl n.toNat) <;> rfl

/-- The skeleton stops, having cut `[off, off + n)` into consecutive non-empty
strips. -/
theorem q15_axpy_rvv_strips_post (vsetvl : Nat → Nat) (hv : ValidVsetvl vsetvl) :
    ∀ (fuel : Nat) (n : Int) (off : Nat), n ≤ 2147483647 → n.toNat < fuel →
      ∃ l, q15_axpy_rvv_strips vsetvl fuel n off = some (l, if 0 < n then 0 else n) ∧
        Contiguous off l ∧ (l.map Prod.snd).sum = n.toNat ∧ l.length ≤ n.toNat := by
  intro fuel
  induction fuel with
  | zero => intro n off _ hf; omega
  | succ fuel ih =>
    intro n off hn hf
    by_cases c : 0 < n
    · obtain ⟨v1, v2⟩ := hv n.toNat (by omega)
      obtain ⟨l, e, hc, hs, hl⟩ := ih (n - (vsetvl n.toNat : Nat)) (off + vsetvl n.toNat)
        (by omega) (by omega)
      rw [q15_axpy_rvv_strips_step vsetvl fuel n off c hn v2, e, if_pos c]
      refine ⟨(off, vsetvl n.toNat) :: l, ?_, ⟨rfl, v1, hc⟩, ?_, ?_⟩
      · simp only [Option.map_some', Option.some.injEq, Prod.mk.injEq, true_and]
        split <;> omega
      · simp only [List.map_cons, List.sum_cons, hs]
        omega
      · simp only [List.length_cons]
        omega
    · rw [q15_axpy_rvv_strips, if_neg c, if_neg c]
      exact ⟨[], rfl, trivial, by simp; omega, by simp⟩

theorem afterStrip_trace (m : Mem) (alpha : Int) (off vl : Nat) :
    (m.afterStrip alpha off vl).trace = m.trace ++ stripTrace (off, vl) := by
  simp [Mem.afterStrip, stripTrace]

/-- The accesses of the native loop are those of the skeleton's strips, in
order. -/
theorem q15_axpy_rvv_loop_trace (vsetvl : Nat → Nat) (hv : ValidVsetvl vsetvl) (alpha : Int)
    (hal : isInt16 alpha) :
    ∀ (fuel : Nat) (n : Int) (off : Nat) (m : Mem) (l : List (Nat × Nat)) (r : Int),
      n ≤ 2147483647 →
      off + n.toNat ≤ m.a.length → off + n.toNat ≤ m.b.length →
      off + n.toNat ≤ m.y.length → (∀ x ∈ m.a, isInt16 x) → (∀ x ∈ m.b, isInt16 x) →
      q15_axpy_rvv_strips vsetvl fuel n off = some (l, r) →
      ∃ m', q15_axpy_rvv_loop vsetvl alpha fuel n off m = some m' ∧
        m'.trace = m.trace ++ l.flatMap stripTrace := by
  intro fuel
  induction fuel with
  | zero =>
    intro n off m l r _ _ _ _ _ _ e
    rw [q15_axpy_rvv_strips] at e
    exact absurd e (by simp)
  | succ fuel ih =>
    intro n off m l r hn ha hb hy ia ib e
    by_cases c : 0 < n
    · obtain ⟨v1, v2⟩ := hv n.toNat (by omega)
      rw [q15_axpy_rvv_strips_step vsetvl fuel n off c hn v2] at e
      rw [q15_axpy_rvv_loop_step vsetvl alpha fuel n off m c hn v2 ha hb hy hal ia ib]
      cases hs : q15_axpy_rvv_strips vsetvl fuel (n - (vsetvl n.toNat : Nat))
          (off + vsetvl n.toNat) with
      | none => rw [hs] at e; exact absurd e (by simp)
      | some p =>
        rw [hs] at e
        simp only [Option.map_some', Option.some.injEq, Prod.mk.injEq] at e
        obtain ⟨e1, _⟩ := e
        have e0 : (n - (vsetvl n.toNat : Nat)).toNat = n.toNat - vsetvl n.toNat := by omega
        obtain ⟨m', em, et⟩ := ih (n - (vsetvl n.toNat : Nat)) (off + vsetvl n.toNat)
          (m.afterStrip alpha off (vsetvl n.toNat)) p.1 p.2 (by omega)
          (by rw [e0]; simp only [Mem.afterStrip]; omega)
          (by rw [e0]; simp only [Mem.afterStrip]; omega)
          (by rw [e0, (afterStrip_span m alpha off _ (by omega)).y_len]; omega)
          ia ib hs
        refine ⟨m', em, ?_⟩
        rw [et, afterStrip_trace, ← e1, List.flatMap_cons, List.append_assoc]
    · rw [q15_axpy_rvv_strips, if_neg c] at e
      simp only [Option.some.injEq, Prod.mk.injEq] at e
      rw [q15_axpy_rvv_loop, if_neg c, ← e.1]
      exact ⟨m, rfl, by simp⟩

/-- Consecutive strips from `start` contain an index once if it lies in
`[start, start + total length)` and not at all otherwise. -/
theorem Contiguous.covering_eq : ∀ (l : List (Nat × Nat)) (start i : Nat), Contiguous start l →
    covering l i = if start ≤ i ∧ i < start + (l.map Prod.snd).sum then 1 else 0 := by
  intro l
  induction l with
  | nil =>
    intro start i _
    simp only [covering, List.filter_nil, List.length_nil, List.map_nil, List.sum_nil]
    rw [if_neg (by omega)]
  | cons c rest ih =>
    intro start i h
    obtain ⟨off, vl⟩ := c
    obtain ⟨h1, h2, h3⟩ := h
    have hr := ih (start + vl) i h3
    unfold covering at hr ⊢
    simp only [List.map_cons, List.sum_cons]
    by_cases q : off ≤ i ∧ i < off + vl
    · rw [List.filter_cons_of_pos (by simpa using q), List.length_cons, hr,
        if_neg (by omega), if_pos (by omega)]
    · rw [List.filter_cons_of_neg (by simpa using q), hr]
      by_cases q2 : start + vl ≤ i ∧ i < start + vl + (rest.map Prod.snd).sum
      · rw [if_pos q2, if_pos (by omega)]
      · rw [if_neg q2, if_neg (by omega)]

/-- C13: for every `n` and every admissible `vsetvl`, the strip-mining loop of
`q15_axpy_rvv` stops: its skeleton returns a list of strips and an exit value
of `n` that is 0 whenever `n ≥ 0`, and the kernel returns having performed
exactly the accesses of those strips, in order.  There are at most `n`
strips, their lengths sum to `n`, they are non-empty and consecutive from 0
(`[0, vl1)`, `[vl1, vl1 + vl2)`, ...), so that every index below `n` lies in
exactly one strip and no other index lies in any; with `n ≤ 0` there is no
strip and the memory is left as it was. -/
theorem strips_cover_once (vsetvl : Nat → Nat) (m : Mem) (n alpha : Int)
    (hv : ValidVsetvl vsetvl) (hn : n ≤ 2147483647) (hal : isInt16 alpha)
    (ha : n.toNat ≤ m.a.length) (hb : n.toNat ≤ m.b.length) (hy : n.toNat ≤ m.y.length)
    (ia : ∀ x ∈ m.a, isInt16 x) (ib : ∀ x ∈ m.b, isInt16 x) :
    ∃ l r m', q15_axpy_rvv_strips vsetvl (n.toNat + 1) n 0 = some (l, r) ∧
      q15_axpy_rvv (Build.native vsetvl) m n alpha = some m' ∧
      (0 ≤ n → r = 0) ∧
      m'.trace = m.trace ++ l.flatMap stripTrace ∧
      l.length ≤ n.toNat ∧
      (l.map Prod.snd).sum = n.toNat ∧
      Contiguous 0 l ∧
      (∀ i, covering l i = if i < n.toNat then 1 else 0) ∧
      (n ≤ 0 → l = [] ∧ m' = m) := by
  obtain ⟨l, el, hc, hs, hl⟩ := q15_axpy_rvv_strips_post vsetvl hv (n.toNat + 1) n 0 hn
    (by omega)
  obtain ⟨m', em, et⟩ := q15_axpy_rvv_loop_trace vsetvl hv alpha hal (n.toNat + 1) n 0 m l _ hn
    (by omega) (by omega) (by omega) ia ib el
  refine ⟨l, _, m', el, em, ?_, et, hl, hs, hc, ?_, ?_⟩
  · intro h0
    split <;> omega
  · intro i
    rw [hc.covering_eq l 0 i, hs]
    by_cases c : i < n.toNat
    · rw [if_pos c, if_pos (by omega)]
    · rw [if_neg c, if_neg (by omega)]
  · intro h0
    have e0 : n.toNat = 0 := by omega
    have hl0 : l = [] := List.eq_nil_of_length_eq_zero (by omega)
    refine ⟨hl0, ?_⟩
    obtain ⟨m2, e2, s2⟩ := q15_axpy_rvv_native_span vsetvl hv m n alpha hn hal ha hb hy ia ib
    have e3 : some m' = some m2 := em.symm.trans e2
    rw [Option.some.inj e3]
    rw [e0] at s2
    exact s2.eq_of_empty

/-- Witness for C13: five elements in strips of two lanes, that is `(0, 2)`,
`(2, 2)`, `(4, 1)`. -/
theorem strips_cover_once_witness :
    ∃ l r m', q15_axpy_rvv_strips (vsetvl_e16m1 2) ((5 : Int).toNat + 1) 5 0 = some (l, r) ∧
      q15_axpy_rvv (Build.native (vsetvl_e16m1 2)) stripMem 5 3 = some m' ∧
      (0 ≤ (5 : Int) → r = 0) ∧
      m'.trace = stripMem.trace ++ l.flatMap stripTrace ∧
      l.length ≤ (5 : Int).toNat ∧
      (l.map Prod.snd).sum = (5 : Int).toNat ∧
      Contiguous 0 l ∧
      (∀ i, covering l i = if i < (5 : Int).toNat then 1 else 0) ∧
      ((5 : Int) ≤ 0 → l = [] ∧ m' = stripMem) :=
  strips_cover_once (vsetvl_e16m1 2) stripMem 5 3 (validVsetvl_e16m1 2 (by decide))
    (by decide) (by decide) (by decide) (by decide) (by decide) (by decide) (by decide)

/-- C14: for every non-negative generator output `r` the value
`(r % 65536) - 32768` lies in `[-32768, 32767]`, so the cast to `int16_t`
leaves it unchanged; and every Sample `s` in `[-32768, 32767]` is the value
stored for some generator output `r'`, with `0 ≤ r' ≤ 65535`. -/
theorem sample_range (r s : Int) (hr : 0 ≤ r) (hs : isInt16 s) :
    (isInt16 (Int.tmod r 65536 - 32768) ∧ sample r = Int.tmod r 65536 - 32768 ∧
      isInt16 (sample r)) ∧
    ∃ r', 0 ≤ r' ∧ r' ≤ 65535 ∧ sample r' = s := by
  have h1 : Int.tmod r 65536 = r % 65536 := Int.tmod_eq_emod hr (by decide)
  have h2 : isInt16 (Int.tmod r 65536 - 32768) := by
    rw [h1]; unfold isInt16; omega
  refine ⟨⟨h2, toInt16_of_isInt16 h2, toInt16_isInt16 _⟩, s + 32768, ?_, ?_, ?_⟩
  · unfold isInt16 at hs; omega
  · unfold isInt16 at hs; omega
  · unfold isInt16 at hs
    unfold sample
    rw [Int.tmod_eq_emod (by omega) (by decide)]
    unfold toInt16
    omega

/-- Witness for C14: the largest 31-bit generator output and the smallest
Sample. -/
theorem sample_range_witness :
    (isInt16 (Int.tmod 2147483647 65536 - 32768) ∧
      sample 2147483647 = Int.tmod 2147483647 65536 - 32768 ∧
      isInt16 (sample 2147483647)) ∧
    ∃ r', 0 ≤ r' ∧ r' ≤ 65535 ∧ sample r' = -32768 :=
  sample_range 2147483647 (-32768) (by decide) (by decide)

theorem VerifyPost.md_bounds {ref test : List Int} {k : Nat} {ok md : Int}
    (p : VerifyPost ref test k ok md) (lr : k ≤ ref.length) (lt : k ≤ test.length)
    (ir : ∀ x ∈ ref, isInt16 x) (it : ∀ x ∈ test, isInt16 x) : 0 ≤ md ∧ md ≤ 65535 := by
  obtain ⟨_, _, _, h4⟩ := p
  rcases h4 with ⟨_, e⟩ | ⟨i, hi, e⟩
  · omega
  · have h1 := getD_isInt16 ir (i := i) (by omega)
    have h2 := getD_isInt16 it (i := i) (by omega)
    unfold isInt16 at h1 h2
    rw [e]
    exact ⟨abs_nonneg _, abs_le.mpr ⟨by omega, by omega⟩⟩

theorem VerifyPost.ok_iff_md {ref test : List Int} {k : Nat} {ok md : Int}
    (p : VerifyPost ref test k ok md) : ok = 1 ↔ md = 0 := by
  obtain ⟨_, h2, h3, h4⟩ := p
  rw [h2]
  constructor
  · intro h
    rcases h4 with ⟨_, e⟩ | ⟨i, hi, e⟩
    · exact e
    · rw [e, h i hi, sub_self, abs_zero]
  · intro h i hi
    have := h3 i hi
    rw [h] at this
    exact sub_eq_zero.mp (abs_eq_zero.mp (le_antisymm this (abs_nonneg _)))

/-- C15: for `int16_t` values `r`, `t` the difference `r - t` lies in
`[-65535, 65535]`, so the `int32_t` subtraction of line 65 is exact and the
negation of line 66, taken when the difference is negative, is exact too; and
on `int16_t` buffers `verify_equal` returns with `0 ≤ max_diff ≤ 65535`. -/
theorem verify_no_overflow (r t : Int) (ref test : List Int) (n : Int)
    (hr : isInt16 r) (ht : isInt16 t) (hn : n ≤ 2147483647)
    (lr : n.toNat ≤ ref.length) (lt : n.toNat ≤ test.length)
    (ir : ∀ x ∈ ref, isInt16 x) (it : ∀ x ∈ test, isInt16 x) :
    (-65535 ≤ r - t ∧ r - t ≤ 65535) ∧
    toInt32 (toInt32 r - toInt32 t) = r - t ∧
    (r - t < 0 → isInt32 (-(r - t)) ∧ toInt32 (-toInt32 (toInt32 r - toInt32 t)) = -(r - t)) ∧
    ∃ ok md, verify_equal ref test n = some (ok, md) ∧ 0 ≤ md ∧ md ≤ 65535 := by
  have hd : -65535 ≤ r - t ∧ r - t ≤ 65535 := by
    unfold isInt16 at hr ht; omega
  have e : toInt32 (toInt32 r - toInt32 t) = r - t := by
    rw [toInt32_of_isInt32 (isInt32_of_isInt16 hr), toInt32_of_isInt32 (isInt32_of_isInt16 ht)]
    exact toInt32_of_isInt32 (by unfold isInt32; omega)
  refine ⟨hd, e, ?_, ?_⟩
  · intro _
    have h32 : isInt32 (-(r - t)) := by unfold isInt32; omega
    exact ⟨h32, by rw [e]; exact toInt32_of_isInt32 h32⟩
  · obtain ⟨ok, md, ev, p⟩ := verify_equal_post ref test n hn lr lt ir it
    exact ⟨ok, md, ev, p.md_bounds lr lt ir it⟩

/-- Witness for C15: the two extreme samples, whose difference is -65535. -/
theorem verify_no_overflow_witness :
    (-65535 ≤ (-32768 : Int) - 32767 ∧ (-32768 : Int) - 32767 ≤ 65535) ∧
    toInt32 (toInt32 (-32768) - toInt32 32767) = -32768 - 32767 ∧
    ((-32768 : Int) - 32767 < 0 → isInt32 (-(-32768 - 32767)) ∧
      toInt32 (-toInt32 (toInt32 (-32768) - toInt32 32767)) = -(-32768 - 32767)) ∧
    ∃ ok md, verify_equal [-32768, 4] [32767, 4] 2 = some (ok, md) ∧ 0 ≤ md ∧ md ≤ 65535 :=
  verify_no_overflow (-32768) 32767 [-32768, 4] [32767, 4] 2 (by decide) (by decide)
    (by decide) (by decide) (by decide) (by decide) (by decide)

theorem report_reads_ok (tgt : Target) (ok md : Int) :
    (Line.nonRiscv Verdict.OK ∈ tgt.report ok md ∨
      Line.verifyRVV Verdict.OK md ∈ tgt.report ok md) ↔ ok ≠ 0 := by
  cases tgt with
  | host =>
    by_cases c : ok = 0
    · simp [Target.report, c]
    · simp [Target.report, c]
  | riscv bld c0 c1 c2 c3 =>
    by_cases c : ok = 0
    · simp [Target.report, c]
    · simp [Target.report, c]

/-- C16: on `int16_t` buffers holding at least `n` elements, `verify_equal`
returns a result `ok` that is 1 if and only if the `max_diff` it stores is 0
(and `ok` is 0 if and only if `max_diff` is positive), so the report never
reads OK with a non-zero difference nor FAIL with difference 0. -/
theorem verify_outputs_consistent (ref test : List Int) (n : Int) (hn : n ≤ 2147483647)
    (lr : n.toNat ≤ ref.length) (lt : n.toNat ≤ test.length)
    (ir : ∀ x ∈ ref, isInt16 x) (it : ∀ x ∈ test, isInt16 x) :
    ∃ ok md, verify_equal ref test n = some (ok, md) ∧
      (ok = 1 ↔ md = 0) ∧ (ok = 0 ↔ 0 < md) ∧
      ∀ tgt : Target,
        (Line.nonRiscv Verdict.OK ∈ tgt.report ok md ∨
          Line.verifyRVV Verdict.OK md ∈ tgt.report ok md) ↔ md = 0 := by
  obtain ⟨ok, md, ev, p⟩ := verify_equal_post ref test n hn lr lt ir it
  have h1 := p.ok_iff_md
  have h2 := p.md_bounds lr lt ir it
  have h3 := p.1
  refine ⟨ok, md, ev, h1, ?_, ?_⟩
  · constructor
    · intro h
      have : md ≠ 0 := fun hm => by
        have := h1.mpr hm
        omega
      omega
    · intro h
      rcases h3 with h3 | h3
      · have := h1.mp h3
        omega
      · exact h3
  · intro tgt
    rw [report_reads_ok, ← h1]
    rcases h3 with h3 | h3
    · rw [h3]; simp
    · rw [h3]; simp

/-- Witness for C16: a mismatch in the last of three elements. -/
theorem verify_outputs_consistent_witness :
    ∃ ok md, verify_equal [5, 32767, -3] [5, 32767, 4] 3 = some (ok, md) ∧
      (ok = 1 ↔ md = 0) ∧ (ok = 0 ↔ 0 < md) ∧
      ∀ tgt : Target,
        (Line.nonRiscv Verdict.OK ∈ tgt.report ok md ∨
          Line.verifyRVV Verdict.OK md ∈ tgt.report ok md) ↔ md = 0 :=
  verify_outputs_consistent [5, 32767, -3] [5, 32767, 4] 3 (by decide) (by decide) (by decide)
    (by decide) (by decide)

theorem getD_append_left (l1 l2 : List Int) {j : Nat} (h : j < l1.length) :
    (l1 ++ l2).getD j 0 = l1.getD j 0 := by
  rw [List.getD_eq_getElem?_getD, List.getD_eq_getElem?_getD, List.getElem?_append_left h]

theorem getD_append_right (l1 l2 : List Int) {j : Nat} (h : l1.length ≤ j) :
    (l1 ++ l2).getD j 0 = l2.getD (j - l1.length) 0 := by
  rw [List.getD_eq_getElem?_getD, List.getD_eq_getElem?_getD, List.getElem?_append_right h]

/-- C17: `q15_axpy_ref` on the concatenated buffers `(a1 ++ a2, b1 ++ b2)`
with `n = n1 + n2` returns the output on `(a1, b1)` followed by the output on
`(a2, b2)`; and each `y[i]` it writes is `sat_q15_scalar` of the accumulator
of `a[i]`, `alpha` and `b[i]` alone. -/
theorem q15_axpy_ref_append (a1 b1 y1 a2 b2 y2 : List Int) (alpha : Int)
    (hn : a1.length + a2.length ≤ 2147483647)
    (lb1 : b1.length = a1.length) (ly1 : y1.length = a1.length)
    (lb2 : b2.length = a2.length) (ly2 : y2.length = a2.length) :
    ∃ m m1 m2,
      q15_axpy_ref ⟨a1 ++ a2, b1 ++ b2, y1 ++ y2, []⟩ ((a1.length + a2.length : Nat) : Int) alpha
        = some m ∧
      q15_axpy_ref ⟨a1, b1, y1, []⟩ (a1.length : Int) alpha = some m1 ∧
      q15_axpy_ref ⟨a2, b2, y2, []⟩ (a2.length : Int) alpha = some m2 ∧
      m.y = m1.y ++ m2.y ∧
      ∀ i, i < a1.length + a2.length →
        m.y[i]? = some (sat_q15_scalar (acc32 ((a1 ++ a2).getD i 0) alpha ((b1 ++ b2).getD i 0))) := by
  obtain ⟨m, e, s⟩ := q15_axpy_ref_span ⟨a1 ++ a2, b1 ++ b2, y1 ++ y2, []⟩
    ((a1.length + a2.length : Nat) : Int) alpha (by omega) (by simp) (by simp; omega)
    (by simp; omega)
  obtain ⟨m1, e1, s1⟩ := q15_axpy_ref_span ⟨a1, b1, y1, []⟩ (a1.length : Int) alpha (by omega)
    (by simp) (by simp; omega) (by simp; omega)
  obtain ⟨m2, e2, s2⟩ := q15_axpy_ref_span ⟨a2, b2, y2, []⟩ (a2.length : Int) alpha (by omega)
    (by simp) (by simp; omega) (by simp; omega)
  rw [Int.toNat_ofNat] at s s1 s2
  have hl1 : m1.y.length = a1.length := s1.y_len.trans ly1
  have hl2 : m2.y.length = a2.length := s2.y_len.trans ly2
  refine ⟨m, m1, m2, e, e1, e2, ?_, ?_⟩
  · apply List.ext_getElem?
    intro j
    rw [s.y_get]
    by_cases c1 : j < a1.length
    · rw [if_pos (by omega), List.getElem?_append_left (by omega), s1.y_get, if_pos (by omega)]
      unfold axpyAt
      rw [getD_append_left a1 a2 c1, getD_append_left b1 b2 (by omega)]
    · have hr : (m1.y ++ m2.y)[j]? = m2.y[j - a1.length]? := by
        rw [List.getElem?_append_right (by omega), hl1]
      have hy : (y1 ++ y2)[j]? = y2[j - a1.length]? := by
        rw [List.getElem?_append_right (by omega), ly1]
      rw [hr, s2.y_get]
      by_cases c2 : j < a1.length + a2.length
      · rw [if_pos (by omega), if_pos (by omega)]
        unfold axpyAt
        rw [getD_append_right a1 a2 (by omega), getD_append_right b1 b2 (by omega), lb1]
      · rw [if_neg (by omega), if_neg (by omega)]
        exact hy
  · intro i hi
    rw [s.y_get, if_pos (by omega)]
    rfl

/-- Witness for C17: two elements followed by three. -/
theorem q15_axpy_ref_append_witness :
    ∃ m m1 m2,
      q15_axpy_ref ⟨[1, 32767] ++ [-32768, 100, -7], [2, 1] ++ [1, -50, 9],
          [0, 0] ++ [5, 5, 5], []⟩
        ((([1, 32767] : List Int).length + ([-32768, 100, -7] : List Int).length : Nat) : Int) 3
        = some m ∧
      q15_axpy_ref ⟨[1, 32767], [2, 1], [0, 0], []⟩ (([1, 32767] : List Int).length : Int) 3
        = some m1 ∧
      q15_axpy_ref ⟨[-32768, 100, -7], [1, -50, 9], [5, 5, 5], []⟩
        (([-32768, 100, -7] : List Int).length : Int) 3 = some m2 ∧
      m.y = m1.y ++ m2.y ∧
      ∀ i, i < ([1, 32767] : List Int).length + ([-32768, 100, -7] : List Int).length →
        m.y[i]? = some (sat_q15_scalar (acc32 (([1, 32767] ++ [-32768, 100, -7]).getD i 0) 3
          (([2, 1] ++ [1, -50, 9]).getD i 0))) :=
  q15_axpy_ref_append [1, 32767] [2, 1] [0, 0] [-32768, 100, -7] [1, -50, 9] [5, 5, 5] 3
    (by decide) (by decide) (by decide) (by decide) (by decide)

theorem acc32_alpha_zero {ai bi : Int} (ha : isInt16 ai) (hb : isInt16 bi) :
    acc32 ai 0 bi = ai := by
  rw [acc32_exact ha (by decide) hb, Int.zero_mul, Int.add_zero]

theorem axpyAt_alpha_zero (m : Mem) {i : Nat} (ha : i < m.a.length) (hb : i < m.b.length)
    (ia : ∀ x ∈ m.a, isInt16 x) (ib : ∀ x ∈ m.b, isInt16 x) :
    axpyAt m 0 i = m.a.getD i 0 := by
  have h1 := getD_isInt16 ia ha
  have h2 := getD_isInt16 ib hb
  unfold axpyAt
  rw [acc32_alpha_zero h1 h2]
  unfold sat_q15_scalar
  unfold isInt16 at h1
  rw [if_neg (by omega), if_neg (by omega)]
  exact toInt16_of_isInt16 (by unfold isInt16; omega)

/-- C18: with `alpha = 0`, on `int16_t` inputs, `q15_axpy_ref` and
`q15_axpy_rvv` (either build) write `y[i] = a[i]` for every `i < n`; the
accumulator is `a[i]` itself and lies in the `int16_t` range, so neither
clamping branch of the saturation is taken. -/
theorem alpha_zero_identity (bld : Build) (m : Mem) (y1 : List Int) (n : Int)
    (hv : ∀ vsetvl, bld = Build.native vsetvl → ValidVsetvl vsetvl)
    (hn : n ≤ 2147483647)
    (ha : n.toNat ≤ m.a.length) (hb : n.toNat ≤ m.b.length)
    (hy : n.toNat ≤ m.y.length) (hy1 : n.toNat ≤ y1.length)
    (ia : ∀ x ∈ m.a, isInt16 x) (ib : ∀ x ∈ m.b, isInt16 x) :
    ∃ mr mv, q15_axpy_ref m n 0 = some mr ∧
      q15_axpy_rvv bld { m with y := y1 } n 0 = some mv ∧
      ∀ i, i < n.toNat →
        mr.y[i]? = some (m.a.getD i 0) ∧ mv.y[i]? = some (m.a.getD i 0) ∧
        acc32 (m.a.getD i 0) 0 (m.b.getD i 0) = m.a.getD i 0 ∧
        ¬ acc32 (m.a.getD i 0) 0 (m.b.getD i 0) > 32767 ∧
        ¬ acc32 (m.a.getD i 0) 0 (m.b.getD i 0) < -32768 := by
  obtain ⟨mr, er, sr⟩ := q15_axpy_ref_span m n 0 hn ha hb hy
  obtain ⟨mv, ev, sv⟩ := q15_axpy_rvv_span bld hv { m with y := y1 } n 0 hn (by decide)
    ha hb hy1 ia ib
  refine ⟨mr, mv, er, ev, ?_⟩
  intro i hi
  have h1 := getD_isInt16 ia (i := i) (by omega)
  have h2 := getD_isInt16 ib (i := i) (by omega)
  have e := acc32_alpha_zero h1 h2
  refine ⟨?_, ?_, e, ?_, ?_⟩
  · rw [sr.y_get, if_pos ⟨Nat.zero_le _, hi⟩, axpyAt_alpha_zero m (by omega) (by omega) ia ib]
  · rw [sv.y_get, if_pos ⟨Nat.zero_le _, hi⟩, ← axpyAt_alpha_zero m (by omega) (by omega) ia ib]
    rfl
  · rw [e]; unfold isInt16 at h1; omega
  · rw [e]; unfold isInt16 at h1; omega

/-- Witness for C18: five elements with both extremes among them, native build
in strips of two lanes. -/
theorem alpha_zero_identity_witness :
    ∃ mr mv, q15_axpy_ref stripMem 5 0 = some mr ∧
      q15_axpy_rvv (Build.native (vsetvl_e16m1 2)) { stripMem with y := [0, 0, 0, 0, 0] } 5 0
        = some mv ∧
      ∀ i, i < (5 : Int).toNat →
        mr.y[i]? = some (stripMem.a.getD i 0) ∧ mv.y[i]? = some (stripMem.a.getD i 0) ∧
        acc32 (stripMem.a.getD i 0) 0 (stripMem.b.getD i 0) = stripMem.a.getD i 0 ∧
        ¬ acc32 (stripMem.a.getD i 0) 0 (stripMem.b.getD i 0) > 32767 ∧
        ¬ acc32 (stripMem.a.getD i 0) 0 (stripMem.b.getD i 0) < -32768 :=
  alpha_zero_identity (Build.native (vsetvl_e16m1 2)) stripMem [0, 0, 0, 0, 0] 5
    (fun _ h => by cases h; exact validVsetvl_e16m1 2 (by decide))
    (by decide) (by decide) (by decide) (by decide) (by decide) (by decide) (by decide)

/-- C19: for `0 < n ≤ 2147483647` and `1 ≤ vl ≤ n`, the update `n -= vl` of
line 37, carried out in `size_t` and converted back to `int`, yields exactly
`n - vl`: the conversion of `n` to `size_t` keeps its value, the unsigned
subtraction does not wrap, and the result lies in `[0, n)`. -/
theorem sub_vl_exact (n : Int) (vl : Nat) (h0 : 0 < n) (hn : n ≤ 2147483647)
    (h1 : 1 ≤ vl) (h2 : (vl : Int) ≤ n) :
    toUInt64 n = n ∧
    toUInt64 (toUInt64 n - (vl : Int)) = n - vl ∧
    subVl n vl = n - vl ∧
    0 ≤ subVl n vl ∧ subVl n vl < n := by
  have e1 : toUInt64 n = n := by unfold toUInt64; omega
  have e2 : toUInt64 (toUInt64 n - (vl : Int)) = n - vl := by
    rw [e1]; unfold toUInt64; omega
  have e3 : subVl n vl = n - vl := subVl_eq h0 hn (by omega)
  refine ⟨e1, e2, e3, ?_, ?_⟩
  · rw [e3]; omega
  · rw [e3]; omega

/-- Witness for C19: the largest `int` count, all of it granted at once. -/
theorem sub_vl_exact_witness :
    toUInt64 2147483647 = 2147483647 ∧
    toUInt64 (toUInt64 2147483647 - ((2147483647 : Nat) : Int)) =
      2147483647 - ((2147483647 : Nat) : Int) ∧
    subVl 2147483647 2147483647 = 2147483647 - ((2147483647 : Nat) : Int) ∧
    0 ≤ subVl 2147483647 2147483647 ∧ subVl 2147483647 2147483647 < 2147483647 :=
  sub_vl_exact 2147483647 2147483647 (by decide) (by decide) (by decide) (by decide)

end Audiomark
